import Mathlib

/-!
Verification development for the `go-advanced` repository.

Two kernels are embedded from the Go sources:

* the batched `Pipe` coordinator (`src/buf-reader-writer/easy/task_expected.go`
  and the pipelined variant of `src/buf-reader-writer/hard/task_expected.go`);
* the concatenating prefetching `MultiReader`
  (`src/unnamed/part_001` / `src/unnamed/part_004`).

Go errors are modelled by the inductive `GoError`; `fmt.Errorf("...: %w", err)`
becomes `GoError.wrap msg err`, and `errors.Is` becomes `errorsIs`, which
unwraps the chain of `wrap`s.  Sub-readers are modelled by their byte contents
(`List Nat`), with the `strings.Reader` semantics used by the repository's
mock readers.  The prefetch goroutine and its bounded channel are modelled by
the deterministic stream of blocks it publishes: a single consumer receives
the blocks in publication order, so for the sequential caller the channel
capacity only affects timing, never the data observed.
-/

set_option maxRecDepth 10000
set_option linter.unnecessarySimpa false
set_option linter.unusedVariables false

/-- Model of Go `error` values used by the repository: sentinels (`io.EOF`,
`io.ErrClosedPipe`), `fmt.Errorf` formatting without a cause, wrapped errors
(`%w`), and opaque external errors (`errors.New`). -/
inductive GoError : Type
  | eof : GoError
  | closedPipe : GoError
  | invalidWhence (whence : Int) : GoError
  | seekOutOfRange (pos total : Int) : GoError
  | named (tag : String) : GoError
  | wrap (msg : String) (cause : GoError) : GoError
  deriving DecidableEq, Repr

/-- Model of `errors.Is(err, target)`: unwrap `err` through `%w` wrappers,
comparing with `target` at every level. -/
def errorsIs : GoError → GoError → Bool
  | e, target =>
    e == target ||
      match e with
      | .wrap _ cause => errorsIs cause target
      | _ => false

/-- `const MaxItems = 9999` from `buf-reader-writer`. -/
def MaxItems : Nat := 9999

/-- One result of `producer.Next()`: either a batch with its cookie, or an
error (`io.EOF` being the normal termination signal). -/
inductive NextRes (α : Type) : Type
  | ok (items : List α) (cookie : Int) : NextRes α
  | err (e : GoError) : NextRes α
  deriving DecidableEq, Repr

/-- Behaviour of the external collaborators of `Pipe`:
`processErr items` is the error returned by `consumer.Process(items)` (none on
success) and `commitErr c` the error returned by `producer.Commit(c)`. -/
structure PipeEnv (α : Type) where
  processErr : List α → Option GoError
  commitErr : Int → Option GoError

namespace EasyPipe

/-- Observable state of a run of the base `Pipe`
(`src/buf-reader-writer/easy/task_expected.go`, lines 21-51): the pending
buffer `buf` and cookie list `cookies`, the recorded `Process` call arguments,
the recorded `Commit` attempts and successes, and the terminating error
(`none` while the loop is still running). -/
structure State (α : Type) where
  buf : List α
  cookies : List Int
  processed : List (List α)
  commitAttempts : List Int
  committed : List Int
  result : Option GoError
  deriving DecidableEq, Repr

/-- The state at the top of `Pipe`: empty buffer, no calls made. -/
def initState (α : Type) : State α :=
  { buf := [], cookies := [], processed := [], commitAttempts := [],
    committed := [], result := none }

/-- The commit loop `for _, ck := range cookies { err = p.Commit(ck); ... }`:
returns the attempted cookies, the successfully committed cookies, and the
wrapped error of the first failing commit (the loop stops there). -/
def commitList (env : PipeEnv α) : List Int → List Int × List Int × Option GoError
  | [] => ([], [], none)
  | c :: rest =>
    match env.commitErr c with
    | some e => ([c], [], some (.wrap ("error commiting cookie " ++ toString c) e))
    | none =>
      let r := commitList env rest
      (c :: r.1, c :: r.2.1, r.2.2)

/-- One iteration of the `for` loop of the base `Pipe`, given the outcome of
`p.Next()`.  Mirrors lines 26-50 of `easy/task_expected.go`: a read error
terminates wrapped as `read error`; if the batch fits, it is appended; on
overflow `Process(buf)` is called (the call is recorded even when it fails,
matching the consumer side), a failure terminates as `push error`, otherwise
the cookies are committed in order and the buffer restarts from the incoming
batch. -/
def step (env : PipeEnv α) (st : State α) : NextRes α → State α
  | .err e => { st with result := some (.wrap "read error" e) }
  | .ok items cookie =>
    if st.buf.length + items.length ≤ MaxItems then
      { st with buf := st.buf ++ items, cookies := st.cookies ++ [cookie] }
    else
      match env.processErr st.buf with
      | some e =>
        { st with processed := st.processed ++ [st.buf],
                  result := some (.wrap "push error" e) }
      | none =>
        let r := commitList env st.cookies
        match r.2.2 with
        | some e =>
          { st with processed := st.processed ++ [st.buf],
                    commitAttempts := st.commitAttempts ++ r.1,
                    committed := st.committed ++ r.2.1,
                    result := some e }
        | none =>
          { st with processed := st.processed ++ [st.buf],
                    commitAttempts := st.commitAttempts ++ r.1,
                    committed := st.committed ++ r.2.1,
                    buf := items, cookies := [cookie] }

/-- A run of the base `Pipe` over a finite script of successive `Next`
outcomes.  Once `result` is set the loop has returned, so the rest of the
script is ignored. -/
def run (env : PipeEnv α) (script : List (NextRes α)) : State α :=
  script.foldl (fun st r => if st.result.isSome then st else step env st r)
    (initState α)

theorem run_append (env : PipeEnv α) (s t : List (NextRes α)) :
    run env (s ++ t) =
      t.foldl (fun st r => if st.result.isSome then st else step env st r)
        (run env s) := by
  simp [run, List.foldl_append]

theorem run_halted (env : PipeEnv α) (st : State α) (t : List (NextRes α))
    (h : st.result.isSome) :
    t.foldl (fun st r => if st.result.isSome then st else step env st r) st
      = st := by
  induction t with
  | nil => rfl
  | cons r rest ih => simpa [h] using ih

theorem commitList_all_ok (env : PipeEnv α) (l : List Int)
    (h : ∀ c ∈ l, env.commitErr c = none) :
    commitList env l = (l, l, none) := by
  induction l with
  | nil => rfl
  | cons c rest ih =>
    have hc : env.commitErr c = none := h c (by simp)
    have hrest : ∀ x ∈ rest, env.commitErr x = none := fun x hx => h x (by simp [hx])
    simp [commitList, hc, ih hrest]

theorem commitList_first_bad (env : PipeEnv α) (good : List Int) (bad : Int)
    (later : List Int) (e : GoError)
    (hg : ∀ c ∈ good, env.commitErr c = none)
    (hb : env.commitErr bad = some e) :
    commitList env (good ++ bad :: later) =
      (good ++ [bad], good,
        some (.wrap ("error commiting cookie " ++ toString bad) e)) := by
  induction good with
  | nil => simp [commitList, hb]
  | cons c rest ih =>
    have hc : env.commitErr c = none := hg c (by simp)
    have hrest : ∀ x ∈ rest, env.commitErr x = none := fun x hx => hg x (by simp [hx])
    simp [commitList, hc, ih hrest]

theorem commitList_mem (env : PipeEnv α) (l : List Int) :
    ∀ c ∈ (commitList env l).1, c ∈ l := by
  induction l with
  | nil => simp [commitList]
  | cons c rest ih =>
    intro x hx
    cases hc : env.commitErr c with
    | some e => simp [commitList, hc] at hx; simp [hx]
    | none =>
      simp [commitList, hc] at hx
      rcases hx with hx | hx
      · simp [hx]
      · exact List.mem_cons_of_mem _ (ih x hx)

/-- Buffer/processed-length invariant of a run, provided every producer batch
respects `MaxItems`. -/
theorem capacity_inv (env : PipeEnv α) (script : List (NextRes α)) (st : State α)
    (hb : ∀ r ∈ script, ∀ items cookie, r = NextRes.ok items cookie →
      items.length ≤ MaxItems)
    (hst : st.buf.length ≤ MaxItems ∧ ∀ b ∈ st.processed, b.length ≤ MaxItems) :
    let fin := script.foldl
      (fun st r => if st.result.isSome then st else step env st r) st
    fin.buf.length ≤ MaxItems ∧ ∀ b ∈ fin.processed, b.length ≤ MaxItems := by
  induction script generalizing st with
  | nil => exact hst
  | cons r rest ih =>
    have hbrest : ∀ x ∈ rest, ∀ items cookie, x = NextRes.ok items cookie →
        items.length ≤ MaxItems := fun x hx => hb x (by simp [hx])
    simp only [List.foldl_cons]
    by_cases hres : st.result.isSome
    · rw [if_pos hres]; exact ih _ hbrest hst
    · simp only [hres, if_false]
      refine ih _ hbrest ?_
      cases r with
      | err e => exact hst
      | ok items cookie =>
        have hlen : items.length ≤ MaxItems := hb _ (by simp) items cookie rfl
        by_cases hfit : st.buf.length + items.length ≤ MaxItems
        · refine ⟨by simpa [step, hfit] using hfit, ?_⟩
          simpa [step, hfit] using hst.2
        · have hproc : ∀ b : List α, b ∈ st.processed ∨ b = st.buf →
              b.length ≤ MaxItems := by
            intro b hbmem
            rcases hbmem with h | h
            · exact hst.2 b h
            · simpa [h] using hst.1
          cases hpe : env.processErr st.buf with
          | some e => simpa [step, hfit, hpe] using ⟨hst.1, hproc⟩
          | none =>
            cases hcl : (commitList env st.cookies).2.2 with
            | some e => simpa [step, hfit, hpe, hcl] using ⟨hst.1, hproc⟩
            | none => simpa [step, hfit, hpe, hcl] using ⟨hlen, hproc⟩

end EasyPipe

/-- Environment with no Process/Commit failures, over `Nat` items; used by
concrete witnesses. -/
def okEnv : PipeEnv Nat := { processErr := fun _ => none, commitErr := fun _ => none }

theorem errorsIs_wrap (msg : String) (c t : GoError) :
    errorsIs (.wrap msg c) t = (GoError.wrap msg c == t || errorsIs c t) := by
  cases c <;> rfl

theorem errorsIs_self (e : GoError) : errorsIs e e = true := by
  cases e <;> simp [errorsIs, errorsIs_wrap]

theorem errorsIs_wrap_cause (msg : String) (e : GoError) :
    errorsIs (.wrap msg e) e = true := by
  rw [errorsIs_wrap, errorsIs_self e]
  simp

/-- C4. Under the precondition that every items slice returned by a single
`Producer.Next` call has length ≤ `MaxItems` (9,999), every call the base
`Pipe` makes to `Consumer.Process` passes a slice of length ≤ `MaxItems`, and
the pending buffer never exceeds `MaxItems` at any point of the run. -/
theorem c4_pipe_capacity {α : Type} (env : PipeEnv α) (script : List (NextRes α))
    (hb : ∀ r ∈ script, ∀ items cookie, r = NextRes.ok items cookie →
      items.length ≤ MaxItems) :
    (∀ call ∈ (EasyPipe.run env script).processed, call.length ≤ MaxItems) ∧
      (EasyPipe.run env script).buf.length ≤ MaxItems := by
  have h := EasyPipe.capacity_inv env script (EasyPipe.initState α) hb
    (by simp [EasyPipe.initState, MaxItems])
  exact ⟨h.2, h.1⟩

theorem c4_pipe_capacity_witness :
    (∀ r ∈ [NextRes.ok (List.replicate 9999 (0 : Nat)) 1, NextRes.ok [0] 2],
        ∀ items cookie, r = NextRes.ok items cookie → items.length ≤ MaxItems) ∧
      ((∀ call ∈ (EasyPipe.run okEnv
            [NextRes.ok (List.replicate 9999 (0 : Nat)) 1, NextRes.ok [0] 2]).processed,
          call.length ≤ MaxItems) ∧
        (EasyPipe.run okEnv
            [NextRes.ok (List.replicate 9999 (0 : Nat)) 1, NextRes.ok [0] 2]).buf.length
          ≤ MaxItems) := by
  have hb : ∀ r ∈ [NextRes.ok (List.replicate 9999 (0 : Nat)) 1, NextRes.ok [0] 2],
      ∀ items cookie, r = NextRes.ok items cookie → items.length ≤ MaxItems := by
    intro r hr items cookie he
    simp only [List.mem_cons, List.not_mem_nil, or_false] at hr
    rcases hr with hr | hr <;> subst hr <;> cases he
    · rw [List.length_replicate]; decide
    · decide
  exact ⟨hb, c4_pipe_capacity okEnv _ hb⟩

/-- C3. In the base (synchronous) `Pipe`: when `Producer.Next` returns
end-of-stream, `Pipe` terminates with a result in which the end-of-stream
cause is discoverable by an `errors.Is`-style check, and it does not flush the
pending non-empty buffer: the recorded `Process` calls, commit attempts and
commits are exactly those made before the EOF, whatever is still pending. -/
theorem c3_easy_pipe_eof_no_flush {α : Type} (env : PipeEnv α)
    (script : List (NextRes α))
    (h : (EasyPipe.run env script).result = none) :
    (EasyPipe.run env (script ++ [NextRes.err GoError.eof])).result
        = some (GoError.wrap "read error" GoError.eof)
    ∧ errorsIs (GoError.wrap "read error" GoError.eof) GoError.eof = true
    ∧ (EasyPipe.run env (script ++ [NextRes.err GoError.eof])).processed
        = (EasyPipe.run env script).processed
    ∧ (EasyPipe.run env (script ++ [NextRes.err GoError.eof])).commitAttempts
        = (EasyPipe.run env script).commitAttempts
    ∧ (EasyPipe.run env (script ++ [NextRes.err GoError.eof])).committed
        = (EasyPipe.run env script).committed := by
  have hfin : EasyPipe.run env (script ++ [NextRes.err GoError.eof])
      = { EasyPipe.run env script with
            result := some (GoError.wrap "read error" GoError.eof) } := by
    rw [EasyPipe.run_append, List.foldl_cons, if_neg (by simp [h]), List.foldl_nil]
    rfl
  refine ⟨by rw [hfin], errorsIs_wrap_cause _ _, by rw [hfin], by rw [hfin], by rw [hfin]⟩

theorem c3_easy_pipe_eof_no_flush_witness :
    (EasyPipe.run okEnv ([NextRes.ok [5] 1] : List (NextRes Nat))).result = none
    ∧ ((EasyPipe.run okEnv ([NextRes.ok [5] 1] ++ [NextRes.err GoError.eof])).result
          = some (GoError.wrap "read error" GoError.eof)
      ∧ errorsIs (GoError.wrap "read error" GoError.eof) GoError.eof = true
      ∧ (EasyPipe.run okEnv ([NextRes.ok [5] 1] ++ [NextRes.err GoError.eof])).processed
          = (EasyPipe.run okEnv ([NextRes.ok [5] 1] : List (NextRes Nat))).processed
      ∧ (EasyPipe.run okEnv ([NextRes.ok [5] 1] ++ [NextRes.err GoError.eof])).commitAttempts
          = (EasyPipe.run okEnv ([NextRes.ok [5] 1] : List (NextRes Nat))).commitAttempts
      ∧ (EasyPipe.run okEnv ([NextRes.ok [5] 1] ++ [NextRes.err GoError.eof])).committed
          = (EasyPipe.run okEnv ([NextRes.ok [5] 1] : List (NextRes Nat))).committed) :=
  ⟨by decide, c3_easy_pipe_eof_no_flush okEnv [NextRes.ok [5] 1] (by decide)⟩

/-- C5. In the base `Pipe`, when a `Commit` call for some cookie fails, `Pipe`
immediately terminates with an error whose cause is that `Commit` error;
cookies earlier in arrival order within the same group were already committed
(and stay committed), the failing cookie is the last attempt, and no `Commit`
is attempted for any later cookie of that group or of any subsequent batch
(the rest of the script is never reached). -/
theorem c5_easy_pipe_commit_failure {α : Type} (env : PipeEnv α)
    (pre rest : List (NextRes α)) (items : List α) (cookie : Int)
    (good later : List Int) (bad : Int) (e : GoError)
    (hpre : (EasyPipe.run env pre).result = none)
    (hcookies : (EasyPipe.run env pre).cookies = good ++ bad :: later)
    (hover : MaxItems < (EasyPipe.run env pre).buf.length + items.length)
    (hproc : env.processErr (EasyPipe.run env pre).buf = none)
    (hgood : ∀ c ∈ good, env.commitErr c = none)
    (hbad : env.commitErr bad = some e) :
    (EasyPipe.run env (pre ++ NextRes.ok items cookie :: rest)).result
        = some (GoError.wrap ("error commiting cookie " ++ toString bad) e)
    ∧ errorsIs (GoError.wrap ("error commiting cookie " ++ toString bad) e) e = true
    ∧ (EasyPipe.run env (pre ++ NextRes.ok items cookie :: rest)).commitAttempts
        = (EasyPipe.run env pre).commitAttempts ++ (good ++ [bad])
    ∧ (EasyPipe.run env (pre ++ NextRes.ok items cookie :: rest)).committed
        = (EasyPipe.run env pre).committed ++ good := by
  have hnot : ¬ ((EasyPipe.run env pre).buf.length + items.length ≤ MaxItems) :=
    Nat.not_le.mpr hover
  have hcl := EasyPipe.commitList_first_bad env good bad later e hgood hbad
  have hstep : EasyPipe.step env (EasyPipe.run env pre) (NextRes.ok items cookie)
      = { EasyPipe.run env pre with
            processed := (EasyPipe.run env pre).processed ++ [(EasyPipe.run env pre).buf],
            commitAttempts := (EasyPipe.run env pre).commitAttempts ++ (good ++ [bad]),
            committed := (EasyPipe.run env pre).committed ++ good,
            result := some (GoError.wrap ("error commiting cookie " ++ toString bad) e) } := by
    simp [EasyPipe.step, hnot, hproc, hcookies, hcl]
  have hfin : EasyPipe.run env (pre ++ NextRes.ok items cookie :: rest)
      = { EasyPipe.run env pre with
            processed := (EasyPipe.run env pre).processed ++ [(EasyPipe.run env pre).buf],
            commitAttempts := (EasyPipe.run env pre).commitAttempts ++ (good ++ [bad]),
            committed := (EasyPipe.run env pre).committed ++ good,
            result := some (GoError.wrap ("error commiting cookie " ++ toString bad) e) } := by
    rw [EasyPipe.run_append, List.foldl_cons, if_neg (by simp [hpre]), hstep]
    exact EasyPipe.run_halted env _ rest (by simp)
  refine ⟨by rw [hfin], errorsIs_wrap_cause _ _, by rw [hfin], by rw [hfin]⟩

/-- Environment whose `Commit` fails exactly for cookie `2`; used by the C5
witness. -/
def commitFailEnv : PipeEnv Nat :=
  { processErr := fun _ => none,
    commitErr := fun c => if c = 2 then some (.named "commit failed") else none }

theorem c5_easy_pipe_commit_failure_witness :
    ((EasyPipe.run commitFailEnv [NextRes.ok [] 1, NextRes.ok [] 2]).result = none
    ∧ (EasyPipe.run commitFailEnv [NextRes.ok [] 1, NextRes.ok [] 2]).cookies
        = [1] ++ 2 :: []
    ∧ MaxItems < (EasyPipe.run commitFailEnv [NextRes.ok [] 1, NextRes.ok [] 2]).buf.length
        + (List.replicate 10000 (0 : Nat)).length
    ∧ commitFailEnv.processErr
        (EasyPipe.run commitFailEnv [NextRes.ok [] 1, NextRes.ok [] 2]).buf = none
    ∧ (∀ c ∈ [1], commitFailEnv.commitErr c = none)
    ∧ commitFailEnv.commitErr 2 = some (.named "commit failed"))
    ∧ ((EasyPipe.run commitFailEnv ([NextRes.ok [] 1, NextRes.ok [] 2]
            ++ NextRes.ok (List.replicate 10000 (0 : Nat)) 3 :: [])).result
          = some (GoError.wrap ("error commiting cookie " ++ toString (2 : Int))
              (GoError.named "commit failed"))
      ∧ errorsIs (GoError.wrap ("error commiting cookie " ++ toString (2 : Int))
            (GoError.named "commit failed")) (GoError.named "commit failed") = true
      ∧ (EasyPipe.run commitFailEnv ([NextRes.ok [] 1, NextRes.ok [] 2]
            ++ NextRes.ok (List.replicate 10000 (0 : Nat)) 3 :: [])).commitAttempts
          = (EasyPipe.run commitFailEnv [NextRes.ok [] 1, NextRes.ok [] 2]).commitAttempts
            ++ ([1] ++ [2])
      ∧ (EasyPipe.run commitFailEnv ([NextRes.ok [] 1, NextRes.ok [] 2]
            ++ NextRes.ok (List.replicate 10000 (0 : Nat)) 3 :: [])).committed
          = (EasyPipe.run commitFailEnv [NextRes.ok [] 1, NextRes.ok [] 2]).committed
            ++ [1]) := by
  have h1 : (EasyPipe.run commitFailEnv [NextRes.ok [] 1, NextRes.ok [] 2]).result
      = none := by decide
  have h2 : (EasyPipe.run commitFailEnv [NextRes.ok [] 1, NextRes.ok [] 2]).cookies
      = [1] ++ 2 :: [] := by decide
  have h3 : MaxItems <
      (EasyPipe.run commitFailEnv [NextRes.ok [] 1, NextRes.ok [] 2]).buf.length
        + (List.replicate 10000 (0 : Nat)).length := by
    rw [List.length_replicate]; decide
  have h4 : commitFailEnv.processErr
      (EasyPipe.run commitFailEnv [NextRes.ok [] 1, NextRes.ok [] 2]).buf = none := by
    decide
  have h5 : ∀ c ∈ [1], commitFailEnv.commitErr c = none := by decide
  have h6 : commitFailEnv.commitErr 2 = some (.named "commit failed") := by decide
  exact ⟨⟨h1, h2, h3, h4, h5, h6⟩,
    c5_easy_pipe_commit_failure commitFailEnv _ [] _ 3 [1] [] 2 _ h1 h2 h3 h4 h5 h6⟩

/-- C6. In the base `Pipe`, no `Commit` for a cookie is issued before the
`Process` call covering that cookie's batch has returned success.  At any
overflow step from a reachable state: if `Process` fails, `Pipe` returns the
`Process` error (the cause stays discoverable) and no cookie of the failed
coalesced buffer is ever committed or even attempted, whatever the rest of the
input would have been; if `Process` succeeds, the commit attempts issued by
the step are exactly the commit loop over that buffer's own cookies. -/
theorem c6_easy_pipe_commit_gating {α : Type} (env : PipeEnv α)
    (pre rest : List (NextRes α)) (items : List α) (cookie : Int)
    (hpre : (EasyPipe.run env pre).result = none)
    (hover : MaxItems < (EasyPipe.run env pre).buf.length + items.length) :
    (∀ e, env.processErr (EasyPipe.run env pre).buf = some e →
      (EasyPipe.run env (pre ++ NextRes.ok items cookie :: rest)).result
          = some (GoError.wrap "push error" e)
      ∧ errorsIs (GoError.wrap "push error" e) e = true
      ∧ (EasyPipe.run env (pre ++ NextRes.ok items cookie :: rest)).commitAttempts
          = (EasyPipe.run env pre).commitAttempts
      ∧ (EasyPipe.run env (pre ++ NextRes.ok items cookie :: rest)).committed
          = (EasyPipe.run env pre).committed)
    ∧ (env.processErr (EasyPipe.run env pre).buf = none →
      (EasyPipe.run env (pre ++ [NextRes.ok items cookie])).processed
          = (EasyPipe.run env pre).processed ++ [(EasyPipe.run env pre).buf]
      ∧ (EasyPipe.run env (pre ++ [NextRes.ok items cookie])).commitAttempts
          = (EasyPipe.run env pre).commitAttempts
            ++ (EasyPipe.commitList env (EasyPipe.run env pre).cookies).1
      ∧ ∀ c ∈ (EasyPipe.commitList env (EasyPipe.run env pre).cookies).1,
          c ∈ (EasyPipe.run env pre).cookies) := by
  have hnot : ¬ ((EasyPipe.run env pre).buf.length + items.length ≤ MaxItems) :=
    Nat.not_le.mpr hover
  constructor
  · intro e hproc
    have hstep : EasyPipe.step env (EasyPipe.run env pre) (NextRes.ok items cookie)
        = { EasyPipe.run env pre with
              processed := (EasyPipe.run env pre).processed ++ [(EasyPipe.run env pre).buf],
              result := some (GoError.wrap "push error" e) } := by
      simp [EasyPipe.step, hnot, hproc]
    have hfin : EasyPipe.run env (pre ++ NextRes.ok items cookie :: rest)
        = { EasyPipe.run env pre with
              processed := (EasyPipe.run env pre).processed ++ [(EasyPipe.run env pre).buf],
              result := some (GoError.wrap "push error" e) } := by
      rw [EasyPipe.run_append, List.foldl_cons, if_neg (by simp [hpre]), hstep]
      exact EasyPipe.run_halted env _ rest (by simp)
    exact ⟨by rw [hfin], errorsIs_wrap_cause _ _, by rw [hfin], by rw [hfin]⟩
  · intro hproc
    have hmid : EasyPipe.run env (pre ++ [NextRes.ok items cookie])
        = EasyPipe.step env (EasyPipe.run env pre) (NextRes.ok items cookie) := by
      rw [EasyPipe.run_append, List.foldl_cons, if_neg (by simp [hpre]), List.foldl_nil]
    refine ⟨?_, ?_, EasyPipe.commitList_mem env _⟩
    · rw [hmid]
      cases hcl : (EasyPipe.commitList env (EasyPipe.run env pre).cookies).2.2 <;>
        simp [EasyPipe.step, hnot, hproc, hcl]
    · rw [hmid]
      cases hcl : (EasyPipe.commitList env (EasyPipe.run env pre).cookies).2.2 <;>
        simp [EasyPipe.step, hnot, hproc, hcl]

/-- Environment whose `Process` fails on the empty coalesced buffer; used by
the C6 witness. -/
def processFailEnv : PipeEnv Nat :=
  { processErr := fun l => if l = [] then some (.named "process failed") else none,
    commitErr := fun _ => none }

theorem c6_easy_pipe_commit_gating_witness :
    ((EasyPipe.run processFailEnv ([] : List (NextRes Nat))).result = none
    ∧ MaxItems < (EasyPipe.run processFailEnv ([] : List (NextRes Nat))).buf.length
        + (List.replicate 10000 (0 : Nat)).length)
    ∧ ((∀ e, processFailEnv.processErr
          (EasyPipe.run processFailEnv ([] : List (NextRes Nat))).buf = some e →
        (EasyPipe.run processFailEnv
            ([] ++ NextRes.ok (List.replicate 10000 (0 : Nat)) 1 :: [])).result
            = some (GoError.wrap "push error" e)
        ∧ errorsIs (GoError.wrap "push error" e) e = true
        ∧ (EasyPipe.run processFailEnv
              ([] ++ NextRes.ok (List.replicate 10000 (0 : Nat)) 1 :: [])).commitAttempts
            = (EasyPipe.run processFailEnv ([] : List (NextRes Nat))).commitAttempts
        ∧ (EasyPipe.run processFailEnv
              ([] ++ NextRes.ok (List.replicate 10000 (0 : Nat)) 1 :: [])).committed
            = (EasyPipe.run processFailEnv ([] : List (NextRes Nat))).committed)
      ∧ (processFailEnv.processErr
            (EasyPipe.run processFailEnv ([] : List (NextRes Nat))).buf = none →
        (EasyPipe.run processFailEnv
            ([] ++ [NextRes.ok (List.replicate 10000 (0 : Nat)) 1])).processed
            = (EasyPipe.run processFailEnv ([] : List (NextRes Nat))).processed
              ++ [(EasyPipe.run processFailEnv ([] : List (NextRes Nat))).buf]
        ∧ (EasyPipe.run processFailEnv
              ([] ++ [NextRes.ok (List.replicate 10000 (0 : Nat)) 1])).commitAttempts
            = (EasyPipe.run processFailEnv ([] : List (NextRes Nat))).commitAttempts
              ++ (EasyPipe.commitList processFailEnv
                    (EasyPipe.run processFailEnv ([] : List (NextRes Nat))).cookies).1
        ∧ ∀ c ∈ (EasyPipe.commitList processFailEnv
              (EasyPipe.run processFailEnv ([] : List (NextRes Nat))).cookies).1,
            c ∈ (EasyPipe.run processFailEnv ([] : List (NextRes Nat))).cookies)) := by
  have h1 : (EasyPipe.run processFailEnv ([] : List (NextRes Nat))).result = none := by
    decide
  have h2 : MaxItems < (EasyPipe.run processFailEnv ([] : List (NextRes Nat))).buf.length
      + (List.replicate 10000 (0 : Nat)).length := by
    rw [List.length_replicate]; decide
  exact ⟨⟨h1, h2⟩, c6_easy_pipe_commit_gating processFailEnv [] [] _ 1 h1 h2⟩

/-- C10. The base `Pipe` never splits or rejects an oversized producer batch:
if some `Next` call returns items with length > `MaxItems`, `Pipe` calls
`Process` with the previously accumulated buffer (possibly the empty slice,
with zero cookies to commit) and then adopts the oversized slice as the new
pending buffer, so the next overflow passes more than `MaxItems` items to a
single `Process` call. -/
theorem c10_easy_pipe_oversized {α : Type} (env : PipeEnv α)
    (pre : List (NextRes α)) (items items2 : List α) (cookie cookie2 : Int)
    (hpre : (EasyPipe.run env pre).result = none)
    (hover : MaxItems < items.length)
    (hproc : env.processErr (EasyPipe.run env pre).buf = none)
    (hcommit : ∀ c ∈ (EasyPipe.run env pre).cookies, env.commitErr c = none) :
    (EasyPipe.run env (pre ++ [NextRes.ok items cookie])).processed
        = (EasyPipe.run env pre).processed ++ [(EasyPipe.run env pre).buf]
    ∧ (EasyPipe.run env (pre ++ [NextRes.ok items cookie])).buf = items
    ∧ (EasyPipe.run env (pre ++ [NextRes.ok items cookie])).cookies = [cookie]
    ∧ (EasyPipe.run env (pre ++ [NextRes.ok items cookie])).result = none
    ∧ (EasyPipe.run env (pre ++ [NextRes.ok items cookie,
          NextRes.ok items2 cookie2])).processed
        = (EasyPipe.run env pre).processed ++ [(EasyPipe.run env pre).buf] ++ [items]
    ∧ MaxItems < items.length := by
  have hnot : ¬ ((EasyPipe.run env pre).buf.length + items.length ≤ MaxItems) := by
    intro hle
    exact absurd (le_trans (Nat.le_add_left _ _) hle) (Nat.not_le.mpr hover)
  have hcl := EasyPipe.commitList_all_ok env _ hcommit
  have hstep : EasyPipe.step env (EasyPipe.run env pre) (NextRes.ok items cookie)
      = { EasyPipe.run env pre with
            processed := (EasyPipe.run env pre).processed ++ [(EasyPipe.run env pre).buf],
            commitAttempts := (EasyPipe.run env pre).commitAttempts
              ++ (EasyPipe.run env pre).cookies,
            committed := (EasyPipe.run env pre).committed
              ++ (EasyPipe.run env pre).cookies,
            buf := items, cookies := [cookie] } := by
    simp [EasyPipe.step, hnot, hproc, hcl]
  have hmid : EasyPipe.run env (pre ++ [NextRes.ok items cookie])
      = { EasyPipe.run env pre with
            processed := (EasyPipe.run env pre).processed ++ [(EasyPipe.run env pre).buf],
            commitAttempts := (EasyPipe.run env pre).commitAttempts
              ++ (EasyPipe.run env pre).cookies,
            committed := (EasyPipe.run env pre).committed
              ++ (EasyPipe.run env pre).cookies,
            buf := items, cookies := [cookie] } := by
    rw [EasyPipe.run_append, List.foldl_cons, if_neg (by simp [hpre]), List.foldl_nil,
      hstep]
  have hnot2 : ¬ (items.length + items2.length ≤ MaxItems) := by
    intro hle
    exact absurd (le_trans (Nat.le_add_right _ _) hle) (Nat.not_le.mpr hover)
  have hsecond : (EasyPipe.run env (pre ++ [NextRes.ok items cookie,
        NextRes.ok items2 cookie2])).processed
      = (EasyPipe.run env pre).processed ++ [(EasyPipe.run env pre).buf] ++ [items] := by
    have hsplit : pre ++ [NextRes.ok items cookie, NextRes.ok items2 cookie2]
        = (pre ++ [NextRes.ok items cookie]) ++ [NextRes.ok items2 cookie2] := by
      simp
    rw [hsplit, EasyPipe.run_append, List.foldl_cons, if_neg (by rw [hmid]; simp [hpre]),
      List.foldl_nil, hmid]
    cases hpe : env.processErr items with
    | some e => simp [EasyPipe.step, hnot2, hpe]
    | none =>
      cases hcl2 : (EasyPipe.commitList env [cookie]).2.2 <;>
        simp [EasyPipe.step, hnot2, hpe, hcl2]
  exact ⟨by rw [hmid], by rw [hmid], by rw [hmid], by rw [hmid]; exact hpre, hsecond, hover⟩

theorem c10_easy_pipe_oversized_witness :
    ((EasyPipe.run okEnv ([] : List (NextRes Nat))).result = none
    ∧ MaxItems < (List.replicate 10000 (0 : Nat)).length
    ∧ okEnv.processErr (EasyPipe.run okEnv ([] : List (NextRes Nat))).buf = none
    ∧ (∀ c ∈ (EasyPipe.run okEnv ([] : List (NextRes Nat))).cookies,
        okEnv.commitErr c = none))
    ∧ ((EasyPipe.run okEnv ([] ++ [NextRes.ok (List.replicate 10000 (0 : Nat)) 1])).processed
        = (EasyPipe.run okEnv ([] : List (NextRes Nat))).processed
          ++ [(EasyPipe.run okEnv ([] : List (NextRes Nat))).buf]
    ∧ (EasyPipe.run okEnv ([] ++ [NextRes.ok (List.replicate 10000 (0 : Nat)) 1])).buf
        = List.replicate 10000 (0 : Nat)
    ∧ (EasyPipe.run okEnv ([] ++ [NextRes.ok (List.replicate 10000 (0 : Nat)) 1])).cookies
        = [1]
    ∧ (EasyPipe.run okEnv ([] ++ [NextRes.ok (List.replicate 10000 (0 : Nat)) 1])).result
        = none
    ∧ (EasyPipe.run okEnv ([] ++ [NextRes.ok (List.replicate 10000 (0 : Nat)) 1,
          NextRes.ok [] 2])).processed
        = (EasyPipe.run okEnv ([] : List (NextRes Nat))).processed
          ++ [(EasyPipe.run okEnv ([] : List (NextRes Nat))).buf]
          ++ [List.replicate 10000 (0 : Nat)]
    ∧ MaxItems < (List.replicate 10000 (0 : Nat)).length) := by
  have h1 : (EasyPipe.run okEnv ([] : List (NextRes Nat))).result = none := by decide
  have h2 : MaxItems < (List.replicate 10000 (0 : Nat)).length := by
    rw [List.length_replicate]; decide
  have h3 : okEnv.processErr (EasyPipe.run okEnv ([] : List (NextRes Nat))).buf
      = none := by decide
  have h4 : ∀ c ∈ (EasyPipe.run okEnv ([] : List (NextRes Nat))).cookies,
      okEnv.commitErr c = none := by decide
  exact ⟨⟨h1, h2, h3, h4⟩, c10_easy_pipe_oversized okEnv [] _ [] 1 2 h1 h2 h3 h4⟩

namespace MR

/-- `prefixSizes[i]` of `NewMultiReader` (`src/unnamed/part_001`, lines 40-43):
the absolute start position of sub-reader `i`, i.e. the sum of the sizes of
sub-readers `0..i-1`.  Sub-readers are modelled by their byte contents. -/
def prefixSize (cs : List (List Nat)) (i : Nat) : Nat :=
  ((cs.take i).map List.length).sum

/-- `m.totalSize = prefixSizes[len(readers)]`. -/
def totalSize (cs : List (List Nat)) : Nat :=
  prefixSize cs cs.length

/-- Linear formulation of Go's `sort.Search(n, f)` scanning upward from `i`:
the first index `j` with `i ≤ j < n` and `f j`, else `n`.  At its only use
site the predicate is monotone (prefix sums are non-decreasing), so binary
search returns exactly this least index. -/
def searchFrom (n : Nat) (f : Nat → Bool) (i : Nat) : Nat :=
  if i < n then (if f i then i else searchFrom n f (i + 1)) else n
termination_by n - i

/-- `sort.Search(n, f)`: least `i < n` with `f i`, else `n`. -/
def sortSearch (n : Nat) (f : Nat → Bool) : Nat :=
  searchFrom n f 0

theorem searchFrom_le (n : Nat) (f : Nat → Bool) (i j : Nat)
    (hij : i ≤ j) (hjn : j < n) (hfj : f j = true) :
    searchFrom n f i ≤ j := by
  rw [searchFrom]
  rcases Nat.eq_or_lt_of_le hij with heq | hlt
  · subst heq
    simp [hjn, hfj]
  · have hi : i < n := lt_trans hlt hjn
    by_cases hf : f i
    · simpa [hi, hf] using hij
    · simp only [hi, if_true, hf, if_false]
      exact searchFrom_le n f (i + 1) j hlt hjn hfj
termination_by n - i

theorem searchFrom_true (n : Nat) (f : Nat → Bool) (i : Nat)
    (h : searchFrom n f i < n) : f (searchFrom n f i) = true := by
  rw [searchFrom] at h ⊢
  by_cases hi : i < n
  · by_cases hf : f i
    · simpa [hi, hf]
    · simp only [hi, if_true, hf, if_false] at h ⊢
      exact searchFrom_true n f (i + 1) h
  · simp only [hi, if_false] at h
    exact absurd h (lt_irrefl n)
termination_by n - i

theorem searchFrom_min (n : Nat) (f : Nat → Bool) (i k : Nat)
    (hik : i ≤ k) (hk : k < searchFrom n f i) : f k = false := by
  rw [searchFrom] at hk
  by_cases hi : i < n
  · by_cases hf : f i
    · simp only [hi, if_true, hf, if_true] at hk
      exact absurd (lt_of_le_of_lt hik hk) (lt_irrefl i)
    · simp only [hi, if_true, hf, if_false] at hk
      rcases Nat.eq_or_lt_of_le hik with heq | hlt
      · subst heq
        exact Bool.eq_false_iff.mpr (fun hc => hf hc)
      · exact searchFrom_min n f (i + 1) k hlt hk
  · simp only [hi, if_false] at hk
    exact absurd (lt_of_le_of_lt hik hk) hi
termination_by n - i

theorem prefixSize_zero (cs : List (List Nat)) : prefixSize cs 0 = 0 := rfl

theorem prefixSize_succ (cs : List (List Nat)) (i : Nat) (hi : i < cs.length) :
    prefixSize cs (i + 1) = prefixSize cs i + (cs.getD i []).length := by
  have hi2 : i < (cs.map List.length).length := by simpa using hi
  unfold prefixSize
  simp only [List.map_take]
  rw [List.sum_take_succ _ _ hi2, List.getElem_map, List.getD_eq_getElem _ _ hi]

theorem prefixSize_mono (cs : List (List Nat)) (i j : Nat) (hij : i ≤ j) :
    prefixSize cs i ≤ prefixSize cs j := by
  induction j with
  | zero =>
    have h0 : i = 0 := Nat.le_zero.mp hij
    subst h0
    exact le_refl _
  | succ j ih =>
    rcases Nat.eq_or_lt_of_le hij with heq | hlt
    · subst heq; exact le_refl _
    · refine le_trans (ih (Nat.lt_succ_iff.mp hlt)) ?_
      by_cases hj : j < cs.length
      · rw [prefixSize_succ cs j hj]
        exact Nat.le_add_right _ _
      · unfold prefixSize
        rw [List.take_of_length_le (Nat.le_of_not_lt hj),
          List.take_of_length_le (le_trans (Nat.le_of_not_lt hj) (Nat.le_succ j))]

theorem totalSize_eq_flatten_length (cs : List (List Nat)) :
    totalSize cs = cs.flatten.length := by
  unfold totalSize prefixSize
  rw [List.take_length, List.length_flatten]

end MR

namespace MR

/-- Properties of the `sort.Search` call of the prefetch loop
(`curReaderIdx := sort.Search(len(readers), func(i) { prefixSizes[i+1] > curPos })`):
for `pos < totalSize` the selected index is in range, the reader's end lies
strictly beyond `pos`, and the reader's start does not exceed `pos`. -/
theorem sortSearch_reader (cs : List (List Nat)) (pos : Nat)
    (hpos : pos < totalSize cs) :
    sortSearch cs.length (fun i => decide (pos < prefixSize cs (i + 1))) < cs.length
    ∧ pos < prefixSize cs
        (sortSearch cs.length (fun i => decide (pos < prefixSize cs (i + 1))) + 1)
    ∧ prefixSize cs
        (sortSearch cs.length (fun i => decide (pos < prefixSize cs (i + 1)))) ≤ pos := by
  have hn : 0 < cs.length := by
    by_contra hzero
    have h0 : cs.length = 0 := Nat.eq_zero_of_not_pos hzero
    have : totalSize cs = 0 := by
      unfold totalSize
      rw [h0]
      exact prefixSize_zero cs
    omega
  have hlast : (fun i => decide (pos < prefixSize cs (i + 1))) (cs.length - 1) = true := by
    have : cs.length - 1 + 1 = cs.length := Nat.succ_pred_eq_of_pos hn
    simp only [this, decide_eq_true_eq]
    exact hpos
  have hle := searchFrom_le cs.length
    (fun i => decide (pos < prefixSize cs (i + 1))) 0 (cs.length - 1)
    (Nat.zero_le _) (Nat.sub_lt hn Nat.one_pos) hlast
  have hlt : sortSearch cs.length (fun i => decide (pos < prefixSize cs (i + 1)))
      < cs.length := lt_of_le_of_lt hle (Nat.sub_lt hn Nat.one_pos)
  have htrue := searchFrom_true cs.length
    (fun i => decide (pos < prefixSize cs (i + 1))) 0 hlt
  refine ⟨hlt, by simpa using htrue, ?_⟩
  cases hidx : sortSearch cs.length (fun i => decide (pos < prefixSize cs (i + 1))) with
  | zero => rw [prefixSize_zero]; exact Nat.zero_le pos
  | succ t =>
    have hmin := searchFrom_min cs.length
      (fun i => decide (pos < prefixSize cs (i + 1))) 0 t (Nat.zero_le t)
      (by unfold sortSearch at hidx; omega)
    simpa using hmin

/-- The sequence of blocks the prefetch goroutine `prefetchLoop`
(`src/unnamed/part_001`, lines 192-253) publishes on `pfBufCh` when started at
`curPos`, for sub-readers modelled by their byte contents (the semantics of
the repository's `mockStringsReader`): the loop seeks reader `curReaderIdx`
to `localOffset = curPos - prefixSizes[curReaderIdx]` (always succeeding) and
`Read` returns exactly `toRead = min(remainInReader, bufferSize)` bytes with
no error, since `toRead` never exceeds what remains in that reader; the
sub-reader EOF and error branches are therefore never taken.  The source's
index cache is dropped because a valid cached index equals the `sort.Search`
result (prefix sums are monotone), and the `remainInReader == 0` skip is dead
code because the search guarantees `prefixSizes[curReaderIdx+1] > curPos`
(`sortSearch_reader`).  The loop makes progress only for a positive block
size (with `bufferSize = 0` the source loops forever publishing nothing); the
model returns no blocks in that degenerate case. -/
def prefetchBlocks (cs : List (List Nat)) (bufferSize : Nat) (curPos : Nat) :
    List (List Nat) :=
  if h : curPos < totalSize cs ∧ 0 < bufferSize then
    let curReaderIdx :=
      sortSearch cs.length (fun i => decide (curPos < prefixSize cs (i + 1)))
    let localOffset := curPos - prefixSize cs curReaderIdx
    let remainInReader := prefixSize cs (curReaderIdx + 1) - curPos
    let toRead := min remainInReader bufferSize
    ((cs.getD curReaderIdx []).drop localOffset).take toRead
      :: prefetchBlocks cs bufferSize (curPos + toRead)
  else []
termination_by totalSize cs - curPos
decreasing_by
  have hs := sortSearch_reader cs curPos h.1
  have hremain : 0 < prefixSize cs
      (sortSearch cs.length (fun i => decide (curPos < prefixSize cs (i + 1))) + 1)
        - curPos := Nat.sub_pos_of_lt hs.2.1
  have h0 : 0 < min (prefixSize cs
      (sortSearch cs.length (fun i => decide (curPos < prefixSize cs (i + 1))) + 1)
        - curPos) bufferSize := lt_min_iff.mpr ⟨hremain, h.2⟩
  omega

theorem flatten_drop_prefixSize (cs : List (List Nat)) (i : Nat) :
    (cs.drop i).flatten = cs.flatten.drop (prefixSize cs i) := by
  induction cs generalizing i with
  | nil => simp [prefixSize]
  | cons c rest ih =>
    cases i with
    | zero => simp [prefixSize]
    | succ j =>
      have hpre : prefixSize (c :: rest) (j + 1) = c.length + prefixSize rest j := by
        unfold prefixSize
        simp
      rw [List.drop_succ_cons, ih j, List.flatten_cons, hpre,
        List.drop_append_eq_append_drop]
      have hnil : c.drop (c.length + prefixSize rest j) = [] :=
        List.drop_eq_nil_of_le (Nat.le_add_right _ _)
      rw [hnil, List.nil_append, Nat.add_sub_cancel_left]

theorem flatten_drop_at (cs : List (List Nat)) (idx off : Nat)
    (hidx : idx < cs.length) (hoff : off ≤ (cs.getD idx []).length) :
    cs.flatten.drop (prefixSize cs idx + off)
      = ((cs.getD idx []).drop off) ++ (cs.drop (idx + 1)).flatten := by
  rw [← List.drop_drop, ← flatten_drop_prefixSize,
    List.drop_eq_getElem_cons hidx, List.flatten_cons,
    List.drop_append_of_le_length (by rwa [List.getD_eq_getElem _ _ hidx] at hoff),
    List.getD_eq_getElem _ _ hidx]

/-- Joining all published blocks yields exactly the suffix of the
concatenated stream starting at `curPos`. -/
theorem prefetchBlocks_flatten (cs : List (List Nat)) (bufferSize : Nat)
    (hbsz : 0 < bufferSize) (curPos : Nat) :
    (prefetchBlocks cs bufferSize curPos).flatten = cs.flatten.drop curPos := by
  rw [prefetchBlocks]
  by_cases hc : curPos < totalSize cs
  · simp only [dif_pos (And.intro hc hbsz), List.flatten_cons]
    have hs := sortSearch_reader cs curPos hc
    set idx := sortSearch cs.length (fun i => decide (curPos < prefixSize cs (i + 1)))
      with hidxdef
    set toRead := min (prefixSize cs (idx + 1) - curPos) bufferSize with htrdef
    have hlen : (cs.getD idx []).length = prefixSize cs (idx + 1) - prefixSize cs idx := by
      rw [prefixSize_succ cs idx hs.1]
      omega
    have hoff : curPos - prefixSize cs idx ≤ (cs.getD idx []).length := by
      rw [hlen]
      omega
    have hsplit : cs.flatten.drop curPos
        = ((cs.getD idx []).drop (curPos - prefixSize cs idx))
            ++ (cs.drop (idx + 1)).flatten := by
      have hpos : prefixSize cs idx + (curPos - prefixSize cs idx) = curPos := by omega
      have h2 := flatten_drop_at cs idx (curPos - prefixSize cs idx) hs.1 hoff
      rwa [hpos] at h2
    have hfirstlen : toRead
        ≤ ((cs.getD idx []).drop (curPos - prefixSize cs idx)).length := by
      rw [List.length_drop, hlen, htrdef]
      omega
    have hdrop2 : cs.flatten.drop (curPos + toRead)
        = ((cs.getD idx []).drop (curPos - prefixSize cs idx)).drop toRead
            ++ (cs.drop (idx + 1)).flatten := by
      rw [← List.drop_drop, hsplit, List.drop_append_of_le_length hfirstlen]
    rw [prefetchBlocks_flatten cs bufferSize hbsz (curPos + toRead), hdrop2, hsplit,
      ← List.append_assoc, List.take_append_drop]
  · have hneg : ¬ (curPos < totalSize cs ∧ 0 < bufferSize) := by
      rintro ⟨h1, _⟩
      exact hc h1
    rw [dif_neg hneg]
    have hge : cs.flatten.length ≤ curPos := by
      rw [← totalSize_eq_flatten_length]
      omega
    rw [List.flatten_nil, List.drop_eq_nil_of_le hge]
termination_by totalSize cs - curPos
decreasing_by
  have hremain : 0 < prefixSize cs (idx + 1) - curPos := Nat.sub_pos_of_lt hs.2.1
  have h0 : 0 < toRead := by
    rw [htrdef]
    exact lt_min_iff.mpr ⟨hremain, hbsz⟩
  omega

end MR

/-- State of a `MultiReader` (`src/unnamed/part_001`, lines 18-34), between
calls of its sequential caller.  Sub-readers are modelled by their byte
contents (`contents`, fixed at construction like `readers`); `prefixSizes`
and `totalSize` are recomputed by `MR.prefixSize`/`MR.totalSize` instead of
being stored.  The prefetch goroutine and the bounded block channel collapse
into `pfBlocks`, the deterministic stream of blocks not yet received by the
caller: the single consumer receives blocks in publication order, so
`buffersNum` (the channel capacity) only affects timing, never the data, and
is not modelled.  The error channel always carries `io.EOF` here because
list-modelled sub-readers never fail. -/
structure MultiReader where
  contents : List (List Nat)
  bufferSize : Nat
  windowBuf : List Nat
  windowStart : Int
  absPos : Int
  pfStarted : Bool
  pfBlocks : List (List Nat)
  closed : Bool
  deriving DecidableEq, Repr

/-- `NewMultiReader` (lines 39-52): empty window, cursor at 0, prefetch not
started. -/
def NewMultiReader (bufferSize : Nat) (contents : List (List Nat)) : MultiReader :=
  { contents := contents, bufferSize := bufferSize, windowBuf := [],
    windowStart := 0, absPos := 0, pfStarted := false, pfBlocks := [],
    closed := false }

/-- `m.Size()` (lines 173-175): the cached total size. -/
def MultiReader.Size (m : MultiReader) : Int :=
  (MR.totalSize m.contents : Int)

/-- Result of the `for n < len(p)` loop of `MultiReader.Read`. -/
structure ReadLoopOut where
  n : Nat
  out : List Nat
  err : Option GoError
  windowBuf : List Nat
  windowStart : Int
  absPos : Int
  stream : List (List Nat)
  deriving DecidableEq, Repr

/-- The copy loop of `MultiReader.Read` (lines 70-101): while fewer than `k`
bytes are delivered, copy `min(k - n, len(windowBuf))` bytes out of the
window, advancing `windowStart` and `absPos`; once the window is empty,
receive the next block from the prefetch stream and append it to the window;
when the stream is exhausted the block channel is closed and the loop returns
the published terminating error (`io.EOF`: list sub-readers never fail)
together with the bytes already copied. -/
def readLoop (k n : Nat) (out windowBuf : List Nat) (windowStart absPos : Int)
    (stream : List (List Nat)) : ReadLoopOut :=
  if h : n < k then
    if hw : windowBuf.length ≠ 0 then
      let toCopy := min (k - n) windowBuf.length
      let out' := out ++ windowBuf.take toCopy
      let window' := windowBuf.drop toCopy
      let ws' := windowStart + (toCopy : Int)
      let ap' := absPos + (toCopy : Int)
      let n' := n + toCopy
      if n' = k then
        { n := n', out := out', err := none, windowBuf := window',
          windowStart := ws', absPos := ap', stream := stream }
      else
        readLoop k n' out' window' ws' ap' stream
    else
      match stream with
      | [] =>
        { n := n, out := out, err := some .eof, windowBuf := windowBuf,
          windowStart := windowStart, absPos := absPos, stream := [] }
      | b :: rest =>
        readLoop k n out (windowBuf ++ b) windowStart absPos rest
  else
    { n := n, out := out, err := none, windowBuf := windowBuf,
      windowStart := windowStart, absPos := absPos, stream := stream }
termination_by (k - n, stream.length)
decreasing_by
  · apply Prod.Lex.left
    have h1 : 0 < min (k - n) windowBuf.length :=
      lt_min_iff.mpr ⟨Nat.sub_pos_of_lt h, Nat.pos_of_ne_zero hw⟩
    omega
  · apply Prod.Lex.right
    simp

/-- `MultiReader.Read` (lines 55-104): fail if closed, report `io.EOF` at the
end of the stream, lazily start the prefetch loop at the cursor, then run the
copy loop.  Returns the byte count, the bytes written into `p`, the error,
and the new state. -/
def MultiReader.Read (m : MultiReader) (k : Nat) :
    Nat × List Nat × Option GoError × MultiReader :=
  if m.closed then
    (0, [], some .closedPipe, m)
  else if m.absPos = m.Size then
    (0, [], some .eof, m)
  else
    let m1 := if m.pfStarted then m
      else { m with pfStarted := true,
                    pfBlocks := MR.prefetchBlocks m.contents m.bufferSize m.absPos.toNat }
    let r := readLoop k 0 [] m1.windowBuf m1.windowStart m1.absPos m1.pfBlocks
    (r.n, r.out, r.err,
      { m1 with windowBuf := r.windowBuf, windowStart := r.windowStart,
                absPos := r.absPos, pfBlocks := r.stream })

/-- Body of `MultiReader.Seek` (lines 126-144) after the absolute target
`seekPos` has been computed: range check, fast path inside the window
(advance the window by `delta`), otherwise drop the window and reset the
prefetch state (`resetPrefetchLocked`, lines 256-265) so the next `Read`
restarts it at the new cursor; finally set `windowStart = absPos = seekPos`
and return the target. -/
def seekBody (m : MultiReader) (seekPos : Int) : Int × Option GoError × MultiReader :=
  if seekPos < 0 ∨ m.Size < seekPos then
    (0, some (.seekOutOfRange seekPos m.Size), m)
  else
    let delta := seekPos - m.windowStart
    let m' :=
      if 0 ≤ delta ∧ delta < (m.windowBuf.length : Int) then
        { m with windowBuf := m.windowBuf.drop delta.toNat }
      else
        let m'' := { m with windowBuf := [] }
        if m.pfStarted then
          { m'' with pfStarted := false, pfBlocks := [] }
        else m''
    (seekPos, none, { m' with windowStart := seekPos, absPos := seekPos })

/-- `MultiReader.Seek` (lines 107-145): fail when closed; compute the target
per `whence` (`io.SeekStart = 0`, `io.SeekCurrent = 1`, `io.SeekEnd = 2`),
rejecting unknown values; then run the common body. -/
def MultiReader.Seek (m : MultiReader) (offset : Int) (whence : Int) :
    Int × Option GoError × MultiReader :=
  if m.closed then
    (0, some .closedPipe, m)
  else if whence = 0 then
    seekBody m offset
  else if whence = 1 then
    seekBody m (offset + m.absPos)
  else if whence = 2 then
    seekBody m (offset + m.Size)
  else
    (0, some (.invalidWhence whence), m)

/-- The sub-reader close loop of `MultiReader.Close` (lines 162-167):
`for _, r := range m.readers { if err := r.Close(); err != nil { return wrap } }`.
`closeErrs` lists each sub-reader's `Close` outcome; the result tells which
sub-readers had `Close` invoked, and the error `Close` returns. -/
def closeReaders : List (Option GoError) → List Bool × Option GoError
  | [] => ([], none)
  | ce :: rest =>
    match ce with
    | some e => (true :: rest.map (fun _ => false), some (.wrap "r.Close" e))
    | none =>
      let r := closeReaders rest
      (true :: r.1, r.2)

/-- `MultiReader.Close` (lines 148-170): the second call is a no-op returning
`nil`; the first call marks the reader closed, cancels and joins the prefetch
loop, then closes the sub-readers in order with `closeReaders`.  `closeErrs`
lists each sub-reader's `Close` outcome; the third component tells which
sub-readers were closed. -/
def MultiReader.Close (m : MultiReader) (closeErrs : List (Option GoError)) :
    Option GoError × MultiReader × List Bool :=
  if m.closed then
    (none, m, closeErrs.map (fun _ => false))
  else
    let r := closeReaders closeErrs
    (r.2, { m with closed := true }, r.1)

/-- State invariant of `MultiReader` maintained by `Read` and `Seek` (for a
positive block size): the cursor is in range, `windowStart` tracks `absPos`
(both are advanced together in `Read` and set together in `Seek`), and the
window followed by the pending prefetch stream is exactly the suffix of the
concatenated contents starting at the cursor; before the prefetch loop has
started both are empty. -/
def MRInv (m : MultiReader) : Prop :=
  0 ≤ m.absPos ∧ m.absPos ≤ m.Size
  ∧ m.windowStart = m.absPos
  ∧ (m.pfStarted = true →
      m.windowBuf ++ m.pfBlocks.flatten = m.contents.flatten.drop m.absPos.toNat)
  ∧ (m.pfStarted = false → m.windowBuf = [] ∧ m.pfBlocks = [])

theorem MRInv_new (bufferSize : Nat) (contents : List (List Nat)) :
    MRInv (NewMultiReader bufferSize contents) := by
  refine ⟨le_refl 0, ?_, rfl, ?_, fun _ => ⟨rfl, rfl⟩⟩
  · show (0 : Int) ≤ (MR.totalSize contents : Int)
    exact Int.natCast_nonneg _
  · intro hfalse
    cases hfalse

/-- Full correctness of the copy loop: when the requested count fits in the
window plus the pending stream, the loop copies exactly `k - n` further
bytes, returns no error, advances `windowStart` and `absPos` by that count,
and leaves the window plus stream equal to the corresponding suffix. -/
theorem readLoop_spec (k n : Nat) (out w : List Nat) (ws ap : Int)
    (stream : List (List Nat)) (hnk : n ≤ k)
    (havail : k - n ≤ w.length + stream.flatten.length) :
    (readLoop k n out w ws ap stream).n = k
    ∧ (readLoop k n out w ws ap stream).out
        = out ++ (w ++ stream.flatten).take (k - n)
    ∧ (readLoop k n out w ws ap stream).err = none
    ∧ (readLoop k n out w ws ap stream).windowBuf
        ++ (readLoop k n out w ws ap stream).stream.flatten
        = (w ++ stream.flatten).drop (k - n)
    ∧ (readLoop k n out w ws ap stream).windowStart = ws + ((k - n : Nat) : Int)
    ∧ (readLoop k n out w ws ap stream).absPos = ap + ((k - n : Nat) : Int) := by
  by_cases h : n < k
  · by_cases hw : w.length ≠ 0
    · by_cases hdone : n + min (k - n) w.length = k
      · have htc : min (k - n) w.length = k - n := by omega
        have hlen : k - n ≤ w.length := by omega
        have hres : readLoop k n out w ws ap stream
            = { n := n + min (k - n) w.length,
                out := out ++ w.take (min (k - n) w.length), err := none,
                windowBuf := w.drop (min (k - n) w.length),
                windowStart := ws + ((min (k - n) w.length : Nat) : Int),
                absPos := ap + ((min (k - n) w.length : Nat) : Int),
                stream := stream } := by
          rw [readLoop.eq_def]
          simp only [dif_pos h, dif_pos hw, if_pos hdone]
        rw [hres]
        refine ⟨hdone, ?_, rfl, ?_, by rw [htc], by rw [htc]⟩
        · show out ++ w.take (min (k - n) w.length) = _
          rw [htc, List.take_append_of_le_length hlen]
        · show w.drop (min (k - n) w.length) ++ stream.flatten = _
          rw [htc, List.drop_append_of_le_length hlen]
      · have htc : min (k - n) w.length = w.length := by omega
        have hlt : w.length ≤ k - n := by omega
        have hres : readLoop k n out w ws ap stream
            = readLoop k (n + min (k - n) w.length)
                (out ++ w.take (min (k - n) w.length))
                (w.drop (min (k - n) w.length))
                (ws + ((min (k - n) w.length : Nat) : Int))
                (ap + ((min (k - n) w.length : Nat) : Int)) stream := by
          rw [readLoop.eq_def]
          simp only [dif_pos h, dif_pos hw, if_neg hdone]
        have hrec := readLoop_spec k (n + min (k - n) w.length)
          (out ++ w.take (min (k - n) w.length)) (w.drop (min (k - n) w.length))
          (ws + ((min (k - n) w.length : Nat) : Int))
          (ap + ((min (k - n) w.length : Nat) : Int)) stream
          (by omega)
          (by
            rw [htc, List.drop_length]
            simp only [List.length_nil]
            omega)
        rw [hres]
        rw [htc] at hrec ⊢
        rw [List.drop_length, List.take_length] at hrec ⊢
        have harith : k - (n + w.length) = k - n - w.length := by omega
        refine ⟨hrec.1, ?_, hrec.2.2.1, ?_, ?_, ?_⟩
        · rw [hrec.2.1, List.nil_append,
            List.take_append_eq_append_take, List.take_of_length_le hlt,
            List.append_assoc, harith]
        · rw [hrec.2.2.2.1, List.nil_append,
            List.drop_append_eq_append_drop,
            List.drop_eq_nil_of_le hlt, List.nil_append, harith]
        · rw [hrec.2.2.2.2.1]
          omega
        · rw [hrec.2.2.2.2.2]
          omega
    · have hwnil : w = [] := List.length_eq_zero.mp (by omega)
      subst hwnil
      cases hstream : stream with
      | nil =>
        subst hstream
        exfalso
        simp only [List.length_nil, List.flatten_nil] at havail
        omega
      | cons b rest =>
        subst hstream
        have hres : readLoop k n out [] ws ap (b :: rest)
            = readLoop k n out ([] ++ b) ws ap rest := by
          rw [readLoop.eq_def]
          simp only [dif_pos h, dif_neg hw]
        have havail2 : k - n ≤ ([] ++ b : List Nat).length + rest.flatten.length := by
          simp only [List.nil_append, List.flatten_cons, List.length_append] at havail ⊢
          omega
        have hrec := readLoop_spec k n out ([] ++ b) ws ap rest hnk havail2
        rw [hres]
        simpa using hrec
  · have hkn : k - n = 0 := by omega
    have hres : readLoop k n out w ws ap stream
        = { n := n, out := out, err := none, windowBuf := w,
            windowStart := ws, absPos := ap, stream := stream } := by
      rw [readLoop.eq_def]
      simp only [dif_neg h]
    rw [hres, hkn]
    refine ⟨by show n = k; omega, by show out = out ++ _; simp,
      rfl, by show w ++ stream.flatten = _; simp,
      by show ws = ws + ((0 : Nat) : Int); simp,
      by show ap = ap + ((0 : Nat) : Int); simp⟩
termination_by (k - n, stream.length)
decreasing_by
  · apply Prod.Lex.left
    have h1 : 0 < min (k - n) w.length :=
      lt_min_iff.mpr ⟨Nat.sub_pos_of_lt h, Nat.pos_of_ne_zero hw⟩
    omega
  · apply Prod.Lex.right
    rw [hstream]
    simp

theorem MRSize_eq (m : MultiReader) :
    m.Size = (m.contents.flatten.length : Int) := by
  unfold MultiReader.Size
  rw [MR.totalSize_eq_flatten_length]

/-- Specification of `MultiReader.Read` on an open reader satisfying the
invariant, for a request that stays within the remaining stream: exactly `k`
bytes come back, and they are the `k` bytes of the concatenation at the
cursor; the invariant is preserved and the cursor advances by `k`. -/
theorem MultiReader_Read_spec (m : MultiReader) (k : Nat)
    (hInv : MRInv m) (hcl : m.closed = false) (hbsz : 0 < m.bufferSize)
    (hk : m.absPos + (k : Int) ≤ m.Size) :
    (m.Read k).1 = k
    ∧ (m.Read k).2.1 = (m.contents.flatten.drop m.absPos.toNat).take k
    ∧ MRInv (m.Read k).2.2.2
    ∧ (m.Read k).2.2.2.absPos = m.absPos + (k : Int)
    ∧ (m.Read k).2.2.2.closed = false
    ∧ (m.Read k).2.2.2.contents = m.contents
    ∧ (m.Read k).2.2.2.bufferSize = m.bufferSize := by
  obtain ⟨hpos, hsize, hws, hpf, hnpf⟩ := hInv
  have htotal := MRSize_eq m
  by_cases hend : m.absPos = m.Size
  · have hk0 : k = 0 := by omega
    subst hk0
    have hres : m.Read 0 = (0, [], some .eof, m) := by
      unfold MultiReader.Read
      rw [if_neg (by simp [hcl]), if_pos hend]
    rw [hres]
    exact ⟨rfl, by simp, ⟨hpos, hsize, hws, hpf, hnpf⟩, by simp, hcl, rfl, rfl⟩
  · set m1 := if m.pfStarted then m
      else { m with pfStarted := true,
                    pfBlocks := MR.prefetchBlocks m.contents m.bufferSize m.absPos.toNat }
      with hm1def
    have hwb1 : m1.windowBuf = m.windowBuf := by
      by_cases hpfs : m.pfStarted <;> simp [hm1def, hpfs]
    have hws1 : m1.windowStart = m.windowStart := by
      by_cases hpfs : m.pfStarted <;> simp [hm1def, hpfs]
    have hap1 : m1.absPos = m.absPos := by
      by_cases hpfs : m.pfStarted <;> simp [hm1def, hpfs]
    have hct1 : m1.contents = m.contents := by
      by_cases hpfs : m.pfStarted <;> simp [hm1def, hpfs]
    have hbs1 : m1.bufferSize = m.bufferSize := by
      by_cases hpfs : m.pfStarted <;> simp [hm1def, hpfs]
    have hcl1 : m1.closed = false := by
      by_cases hpfs : m.pfStarted <;> simp [hm1def, hpfs, hcl]
    have hpf1 : m1.pfStarted = true := by
      by_cases hpfs : m.pfStarted <;> simp [hm1def, hpfs]
    have hstream : m1.windowBuf ++ m1.pfBlocks.flatten
        = m.contents.flatten.drop m.absPos.toNat := by
      by_cases hpfs : m.pfStarted
      · have : m1 = m := by rw [hm1def, if_pos hpfs]
        rw [this]
        exact hpf hpfs
      · have hnil := hnpf (by simpa using hpfs)
        have : m1.pfBlocks
            = MR.prefetchBlocks m.contents m.bufferSize m.absPos.toNat := by
          simp [hm1def, hpfs]
        rw [hwb1, hnil.1, this,
          MR.prefetchBlocks_flatten m.contents m.bufferSize hbsz m.absPos.toNat,
          List.nil_append]
    set r := readLoop k 0 [] m1.windowBuf m1.windowStart m1.absPos m1.pfBlocks
      with hrdef
    have hres : m.Read k = (r.n, r.out, r.err,
        { m1 with windowBuf := r.windowBuf, windowStart := r.windowStart,
                  absPos := r.absPos, pfBlocks := r.stream }) := by
      unfold MultiReader.Read
      rw [if_neg (by simp [hcl]), if_neg hend]
    have havail : k - 0 ≤ m1.windowBuf.length + m1.pfBlocks.flatten.length := by
      have hlen : m1.windowBuf.length + m1.pfBlocks.flatten.length
          = (m.contents.flatten.drop m.absPos.toNat).length := by
        rw [← List.length_append, hstream]
      rw [hlen, List.length_drop]
      omega
    obtain ⟨hn, hout, herr, hwin, hwsr, hapr⟩ :=
      readLoop_spec k 0 [] m1.windowBuf m1.windowStart m1.absPos m1.pfBlocks
        (Nat.zero_le k) havail
    rw [List.nil_append] at hout
    rw [hres]
    have hsub : k - 0 = k := rfl
    have htonat : (m.absPos + (k : Int)).toNat = m.absPos.toNat + k := by omega
    refine ⟨hn, ?_, ⟨?_, ?_, ?_, ?_, ?_⟩, ?_, hcl1, hct1, hbs1⟩
    · rw [hout, hstream, hsub]
    · show (0 : Int) ≤ r.absPos
      rw [hapr, hap1, hsub]
      omega
    · show r.absPos ≤ ((MR.totalSize m1.contents : Nat) : Int)
      rw [hct1, hapr, hap1, hsub]
      show m.absPos + (k : Int) ≤ m.Size
      exact hk
    · show r.windowStart = r.absPos
      rw [hwsr, hapr, hws1, hap1, hws]
    · intro _
      show r.windowBuf ++ r.stream.flatten
          = m1.contents.flatten.drop r.absPos.toNat
      rw [hwin, hstream, hsub, List.drop_drop, hct1, hapr, hap1, hsub, htonat]
    · intro hf
      exact absurd hf (by simp [hpf1])
    · show r.absPos = m.absPos + (k : Int)
      rw [hapr, hap1, hsub]

/-- Specification of `MultiReader.Seek(t, io.SeekStart)` on an open reader
satisfying the invariant, for a target inside `[0, totalSize]`: the call
succeeds, returns the target, sets `windowStart = absPos = t`, and preserves
the invariant (via the in-window fast path or the window/prefetch reset). -/
theorem MultiReader_Seek_start_spec (m : MultiReader) (t : Int)
    (hInv : MRInv m) (hcl : m.closed = false) (h0 : 0 ≤ t) (hle : t ≤ m.Size) :
    (m.Seek t 0).1 = t
    ∧ (m.Seek t 0).2.1 = none
    ∧ MRInv (m.Seek t 0).2.2
    ∧ (m.Seek t 0).2.2.absPos = t
    ∧ (m.Seek t 0).2.2.closed = false
    ∧ (m.Seek t 0).2.2.contents = m.contents
    ∧ (m.Seek t 0).2.2.bufferSize = m.bufferSize := by
  obtain ⟨hpos, hsize, hws, hpf, hnpf⟩ := hInv
  have hseek : m.Seek t 0 = seekBody m t := by
    unfold MultiReader.Seek
    rw [if_neg (by simp [hcl]), if_pos rfl]
  have hrange : ¬ (t < 0 ∨ m.Size < t) := by omega
  rw [hseek]
  by_cases hfast : 0 ≤ t - m.windowStart
      ∧ t - m.windowStart < (m.windowBuf.length : Int)
  · have hres : seekBody m t
        = (t, none, { m with windowBuf := m.windowBuf.drop (t - m.windowStart).toNat,
                             windowStart := t, absPos := t }) := by
      unfold seekBody
      rw [if_neg hrange]
      simp only [if_pos hfast]
    rw [hres]
    have hdle : (t - m.windowStart).toNat ≤ m.windowBuf.length := by omega
    refine ⟨rfl, rfl, ⟨h0, hle, rfl, ?_, ?_⟩, rfl, hcl, rfl, rfl⟩
    · intro hp
      have hpfs : m.pfStarted = true := hp
      show (m.windowBuf.drop (t - m.windowStart).toNat) ++ m.pfBlocks.flatten
          = m.contents.flatten.drop t.toNat
      rw [← List.drop_append_of_le_length hdle, hpf hpfs, List.drop_drop]
      have : m.absPos.toNat + (t - m.windowStart).toNat = t.toNat := by omega
      rw [this]
    · intro hf
      exfalso
      obtain ⟨hwb, _⟩ := hnpf hf
      rw [hwb] at hfast
      simp only [List.length_nil, Nat.cast_zero] at hfast
      omega
  · by_cases hpfs : m.pfStarted
    · have hres : seekBody m t
          = (t, none, { m with windowBuf := [], pfStarted := false, pfBlocks := [],
                               windowStart := t, absPos := t }) := by
        unfold seekBody
        rw [if_neg hrange]
        simp only [if_neg hfast, if_pos hpfs]
      rw [hres]
      refine ⟨rfl, rfl, ⟨h0, hle, rfl, ?_, fun _ => ⟨rfl, rfl⟩⟩, rfl, hcl, rfl, rfl⟩
      intro hp
      exact absurd hp (by simp)
    · have hres : seekBody m t
          = (t, none, { m with windowBuf := [], windowStart := t, absPos := t }) := by
        unfold seekBody
        rw [if_neg hrange]
        simp only [if_neg hfast, if_neg hpfs]
      rw [hres]
      refine ⟨rfl, rfl, ⟨h0, hle, rfl, ?_, fun _ => ⟨rfl, ?_⟩⟩, rfl, hcl, rfl, rfl⟩
      · intro hp
        exact absurd (show m.pfStarted = true from hp) hpfs
      · exact (hnpf (by simpa using hpfs)).2

/-- C1. Seekable `MultiReader` seek-read consistency: for every valid
target `t` in `[0, totalSize]` and every `k ≤ totalSize - t`, performing
`Seek(t, io.SeekStart)` and then reading `k` bytes yields exactly bytes
`[t, t+k)` of the logical concatenation of the sub-readers' contents; in
particular, reading `totalSize` bytes from a fresh reader yields the full
concatenation. -/
theorem c1_multireader_seek_read (m : MultiReader) (t k : Nat)
    (hInv : MRInv m) (hcl : m.closed = false) (hbsz : 0 < m.bufferSize)
    (ht : t ≤ MR.totalSize m.contents) (hk : k ≤ MR.totalSize m.contents - t) :
    (m.Seek (t : Int) 0).1 = (t : Int)
    ∧ (m.Seek (t : Int) 0).2.1 = none
    ∧ ((m.Seek (t : Int) 0).2.2.Read k).1 = k
    ∧ ((m.Seek (t : Int) 0).2.2.Read k).2.1
        = (m.contents.flatten.drop t).take k
    ∧ ((NewMultiReader m.bufferSize m.contents).Read (MR.totalSize m.contents)).1
        = MR.totalSize m.contents
    ∧ ((NewMultiReader m.bufferSize m.contents).Read (MR.totalSize m.contents)).2.1
        = m.contents.flatten := by
  have htle : (t : Int) ≤ m.Size := by
    show (t : Int) ≤ ((MR.totalSize m.contents : Nat) : Int)
    exact_mod_cast ht
  have hseek := MultiReader_Seek_start_spec m (t : Int) hInv hcl
    (Int.natCast_nonneg t) htle
  obtain ⟨hpos1, herr1, hInv2, hap2, hcl2, hct2, hbs2⟩ := hseek
  have hkint : (m.Seek (t : Int) 0).2.2.absPos + (k : Int)
      ≤ (m.Seek (t : Int) 0).2.2.Size := by
    rw [hap2]
    show (t : Int) + (k : Int)
        ≤ ((MR.totalSize (m.Seek (t : Int) 0).2.2.contents : Nat) : Int)
    rw [hct2]
    have : t + k ≤ MR.totalSize m.contents := by omega
    exact_mod_cast this
  have hread := MultiReader_Read_spec (m.Seek (t : Int) 0).2.2 k hInv2 hcl2
    (by rw [hbs2]; exact hbsz) hkint
  obtain ⟨hn, hout, _, _, _, _, _⟩ := hread
  have hfreshInv := MRInv_new m.bufferSize m.contents
  have hfreshk : (NewMultiReader m.bufferSize m.contents).absPos
      + ((MR.totalSize m.contents : Nat) : Int)
      ≤ (NewMultiReader m.bufferSize m.contents).Size := by
    show (0 : Int) + ((MR.totalSize m.contents : Nat) : Int)
        ≤ ((MR.totalSize m.contents : Nat) : Int)
    omega
  have hfresh := MultiReader_Read_spec (NewMultiReader m.bufferSize m.contents)
    (MR.totalSize m.contents) hfreshInv rfl hbsz hfreshk
  obtain ⟨hfn, hfout, _, _, _, _, _⟩ := hfresh
  refine ⟨hpos1, herr1, hn, ?_, hfn, ?_⟩
  · rw [hout, hct2, hap2]
    have : ((t : Int)).toNat = t := Int.toNat_natCast t
    rw [this]
  · rw [hfout]
    show (m.contents.flatten.drop ((0 : Int)).toNat).take (MR.totalSize m.contents)
        = m.contents.flatten
    rw [Int.toNat_zero, List.drop_zero,
      List.take_of_length_le (by rw [MR.totalSize_eq_flatten_length])]

theorem c1_multireader_seek_read_witness :
    (MRInv (NewMultiReader 2 [[1,2,3],[4,5]])
    ∧ (NewMultiReader 2 [[1,2,3],[4,5]]).closed = false
    ∧ 0 < (NewMultiReader 2 [[1,2,3],[4,5]]).bufferSize
    ∧ 2 ≤ MR.totalSize [[1,2,3],[4,5]]
    ∧ 2 ≤ MR.totalSize [[1,2,3],[4,5]] - 2)
    ∧ (((NewMultiReader 2 [[1,2,3],[4,5]]).Seek ((2 : Nat) : Int) 0).1 = ((2 : Nat) : Int)
    ∧ ((NewMultiReader 2 [[1,2,3],[4,5]]).Seek ((2 : Nat) : Int) 0).2.1 = none
    ∧ (((NewMultiReader 2 [[1,2,3],[4,5]]).Seek ((2 : Nat) : Int) 0).2.2.Read 2).1 = 2
    ∧ (((NewMultiReader 2 [[1,2,3],[4,5]]).Seek ((2 : Nat) : Int) 0).2.2.Read 2).2.1
        = (([[1,2,3],[4,5]] : List (List Nat)).flatten.drop 2).take 2
    ∧ ((NewMultiReader 2 [[1,2,3],[4,5]]).Read (MR.totalSize [[1,2,3],[4,5]])).1
        = MR.totalSize [[1,2,3],[4,5]]
    ∧ ((NewMultiReader 2 [[1,2,3],[4,5]]).Read (MR.totalSize [[1,2,3],[4,5]])).2.1
        = ([[1,2,3],[4,5]] : List (List Nat)).flatten) := by
  have h1 : MRInv (NewMultiReader 2 [[1,2,3],[4,5]]) := by
    refine ⟨by decide, by decide, rfl, ?_, fun _ => ⟨rfl, rfl⟩⟩
    intro h
    exact absurd h (by decide)
  have h3 : 0 < (NewMultiReader 2 [[1,2,3],[4,5]]).bufferSize := by decide
  have h4 : 2 ≤ MR.totalSize [[1,2,3],[4,5]] := by decide
  have h5 : 2 ≤ MR.totalSize [[1,2,3],[4,5]] - 2 := by decide
  exact ⟨⟨h1, rfl, h3, h4, h5⟩,
    c1_multireader_seek_read (NewMultiReader 2 [[1,2,3],[4,5]]) 2 2 h1 rfl h3 h4 h5⟩

/-- Result of `seekBody` (the part of `Seek` after target computation): an
out-of-range target fails with the invalid-argument error carrying the target
and the total size; an in-range target succeeds, returns the target and sets
`windowStart = absPos = target`. -/
theorem seekBody_spec (m : MultiReader) (target : Int) :
    ((target < 0 ∨ m.Size < target) →
      seekBody m target = (0, some (GoError.seekOutOfRange target m.Size), m))
    ∧ (0 ≤ target → target ≤ m.Size →
      (seekBody m target).1 = target
      ∧ (seekBody m target).2.1 = none
      ∧ (seekBody m target).2.2.absPos = target
      ∧ (seekBody m target).2.2.windowStart = target) := by
  constructor
  · intro hbad
    unfold seekBody
    rw [if_pos hbad]
  · intro h0 hle
    have hrange : ¬ (target < 0 ∨ m.Size < target) := by omega
    by_cases hfast : 0 ≤ target - m.windowStart
        ∧ target - m.windowStart < (m.windowBuf.length : Int)
    · have hres : seekBody m target
          = (target, none,
             { m with windowBuf := m.windowBuf.drop (target - m.windowStart).toNat,
                      windowStart := target, absPos := target }) := by
        unfold seekBody
        rw [if_neg hrange]
        simp only [if_pos hfast]
      rw [hres]
      exact ⟨rfl, rfl, rfl, rfl⟩
    · by_cases hpfs : m.pfStarted
      · have hres : seekBody m target
            = (target, none,
               { m with windowBuf := [], pfStarted := false, pfBlocks := [],
                        windowStart := target, absPos := target }) := by
          unfold seekBody
          rw [if_neg hrange]
          simp only [if_neg hfast, if_pos hpfs]
        rw [hres]
        exact ⟨rfl, rfl, rfl, rfl⟩
      · have hres : seekBody m target
            = (target, none,
               { m with windowBuf := [], windowStart := target, absPos := target }) := by
          unfold seekBody
          rw [if_neg hrange]
          simp only [if_neg hfast, if_neg hpfs]
        rw [hres]
        exact ⟨rfl, rfl, rfl, rfl⟩

/-- C7. `MultiReader.Seek` on an open reader computes the absolute target as
`offset` for `io.SeekStart` (0), `cursor + offset` for `io.SeekCurrent` (1),
`totalSize + offset` for `io.SeekEnd` (2); it fails with an invalid-argument
error for an unknown `whence` value, fails with an invalid-argument error
carrying the target whenever the computed target is outside
`[0, totalSize]`, and on success sets the cursor (`absPos`, and
`windowStart`) to the target and returns the target. -/
theorem c7_multireader_seek (m : MultiReader) (offset whence : Int)
    (hcl : m.closed = false) :
    (¬ (whence = 0 ∨ whence = 1 ∨ whence = 2) →
      m.Seek offset whence = (0, some (GoError.invalidWhence whence), m))
    ∧ (whence = 0 →
      (((offset < 0 ∨ m.Size < offset) →
        m.Seek offset whence = (0, some (GoError.seekOutOfRange offset m.Size), m))
      ∧ (0 ≤ offset → offset ≤ m.Size →
        (m.Seek offset whence).1 = offset
        ∧ (m.Seek offset whence).2.1 = none
        ∧ (m.Seek offset whence).2.2.absPos = offset
        ∧ (m.Seek offset whence).2.2.windowStart = offset)))
    ∧ (whence = 1 →
      ((((offset + m.absPos) < 0 ∨ m.Size < (offset + m.absPos)) →
        m.Seek offset whence
          = (0, some (GoError.seekOutOfRange (offset + m.absPos) m.Size), m))
      ∧ (0 ≤ offset + m.absPos → offset + m.absPos ≤ m.Size →
        (m.Seek offset whence).1 = offset + m.absPos
        ∧ (m.Seek offset whence).2.1 = none
        ∧ (m.Seek offset whence).2.2.absPos = offset + m.absPos
        ∧ (m.Seek offset whence).2.2.windowStart = offset + m.absPos)))
    ∧ (whence = 2 →
      ((((offset + m.Size) < 0 ∨ m.Size < (offset + m.Size)) →
        m.Seek offset whence
          = (0, some (GoError.seekOutOfRange (offset + m.Size) m.Size), m))
      ∧ (0 ≤ offset + m.Size → offset + m.Size ≤ m.Size →
        (m.Seek offset whence).1 = offset + m.Size
        ∧ (m.Seek offset whence).2.1 = none
        ∧ (m.Seek offset whence).2.2.absPos = offset + m.Size
        ∧ (m.Seek offset whence).2.2.windowStart = offset + m.Size))) := by
  refine ⟨?_, ?_, ?_, ?_⟩
  · intro hbad
    unfold MultiReader.Seek
    rw [if_neg (by simp [hcl]), if_neg (by omega), if_neg (by omega),
      if_neg (by omega)]
  · intro hw
    subst hw
    have hseek : m.Seek offset 0 = seekBody m offset := by
      unfold MultiReader.Seek
      rw [if_neg (by simp [hcl]), if_pos rfl]
    rw [hseek]
    exact seekBody_spec m offset
  · intro hw
    subst hw
    have hseek : m.Seek offset 1 = seekBody m (offset + m.absPos) := by
      unfold MultiReader.Seek
      rw [if_neg (by simp [hcl]), if_neg (by omega), if_pos rfl]
    rw [hseek]
    exact seekBody_spec m (offset + m.absPos)
  · intro hw
    subst hw
    have hseek : m.Seek offset 2 = seekBody m (offset + m.Size) := by
      unfold MultiReader.Seek
      rw [if_neg (by simp [hcl]), if_neg (by omega), if_neg (by omega), if_pos rfl]
    rw [hseek]
    exact seekBody_spec m (offset + m.Size)

theorem c7_multireader_seek_witness :
    (NewMultiReader 4 [[97,98,99],[100,101,102]]).closed = false
    ∧ ((¬ ((2 : Int) = 0 ∨ (2 : Int) = 1 ∨ (2 : Int) = 2) →
      (NewMultiReader 4 [[97,98,99],[100,101,102]]).Seek (-2) 2
        = (0, some (GoError.invalidWhence 2), NewMultiReader 4 [[97,98,99],[100,101,102]]))
    ∧ ((2 : Int) = 0 →
      (((-2 : Int) < 0 ∨ (NewMultiReader 4 [[97,98,99],[100,101,102]]).Size < -2 →
        (NewMultiReader 4 [[97,98,99],[100,101,102]]).Seek (-2) 2
          = (0, some (GoError.seekOutOfRange (-2)
              (NewMultiReader 4 [[97,98,99],[100,101,102]]).Size),
             NewMultiReader 4 [[97,98,99],[100,101,102]]))
      ∧ (0 ≤ (-2 : Int) → (-2 : Int) ≤ (NewMultiReader 4 [[97,98,99],[100,101,102]]).Size →
        ((NewMultiReader 4 [[97,98,99],[100,101,102]]).Seek (-2) 2).1 = -2
        ∧ ((NewMultiReader 4 [[97,98,99],[100,101,102]]).Seek (-2) 2).2.1 = none
        ∧ ((NewMultiReader 4 [[97,98,99],[100,101,102]]).Seek (-2) 2).2.2.absPos = -2
        ∧ ((NewMultiReader 4 [[97,98,99],[100,101,102]]).Seek (-2) 2).2.2.windowStart = -2)))
    ∧ ((2 : Int) = 1 →
      ((((-2) + (NewMultiReader 4 [[97,98,99],[100,101,102]]).absPos < 0
          ∨ (NewMultiReader 4 [[97,98,99],[100,101,102]]).Size
              < (-2) + (NewMultiReader 4 [[97,98,99],[100,101,102]]).absPos) →
        (NewMultiReader 4 [[97,98,99],[100,101,102]]).Seek (-2) 2
          = (0, some (GoError.seekOutOfRange
              ((-2) + (NewMultiReader 4 [[97,98,99],[100,101,102]]).absPos)
              (NewMultiReader 4 [[97,98,99],[100,101,102]]).Size),
             NewMultiReader 4 [[97,98,99],[100,101,102]]))
      ∧ (0 ≤ (-2) + (NewMultiReader 4 [[97,98,99],[100,101,102]]).absPos →
          (-2) + (NewMultiReader 4 [[97,98,99],[100,101,102]]).absPos
            ≤ (NewMultiReader 4 [[97,98,99],[100,101,102]]).Size →
        ((NewMultiReader 4 [[97,98,99],[100,101,102]]).Seek (-2) 2).1
            = (-2) + (NewMultiReader 4 [[97,98,99],[100,101,102]]).absPos
        ∧ ((NewMultiReader 4 [[97,98,99],[100,101,102]]).Seek (-2) 2).2.1 = none
        ∧ ((NewMultiReader 4 [[97,98,99],[100,101,102]]).Seek (-2) 2).2.2.absPos
            = (-2) + (NewMultiReader 4 [[97,98,99],[100,101,102]]).absPos
        ∧ ((NewMultiReader 4 [[97,98,99],[100,101,102]]).Seek (-2) 2).2.2.windowStart
            = (-2) + (NewMultiReader 4 [[97,98,99],[100,101,102]]).absPos)))
    ∧ ((2 : Int) = 2 →
      ((((-2) + (NewMultiReader 4 [[97,98,99],[100,101,102]]).Size < 0
          ∨ (NewMultiReader 4 [[97,98,99],[100,101,102]]).Size
              < (-2) + (NewMultiReader 4 [[97,98,99],[100,101,102]]).Size) →
        (NewMultiReader 4 [[97,98,99],[100,101,102]]).Seek (-2) 2
          = (0, some (GoError.seekOutOfRange
              ((-2) + (NewMultiReader 4 [[97,98,99],[100,101,102]]).Size)
              (NewMultiReader 4 [[97,98,99],[100,101,102]]).Size),
             NewMultiReader 4 [[97,98,99],[100,101,102]]))
      ∧ (0 ≤ (-2) + (NewMultiReader 4 [[97,98,99],[100,101,102]]).Size →
          (-2) + (NewMultiReader 4 [[97,98,99],[100,101,102]]).Size
            ≤ (NewMultiReader 4 [[97,98,99],[100,101,102]]).Size →
        ((NewMultiReader 4 [[97,98,99],[100,101,102]]).Seek (-2) 2).1
            = (-2) + (NewMultiReader 4 [[97,98,99],[100,101,102]]).Size
        ∧ ((NewMultiReader 4 [[97,98,99],[100,101,102]]).Seek (-2) 2).2.1 = none
        ∧ ((NewMultiReader 4 [[97,98,99],[100,101,102]]).Seek (-2) 2).2.2.absPos
            = (-2) + (NewMultiReader 4 [[97,98,99],[100,101,102]]).Size
        ∧ ((NewMultiReader 4 [[97,98,99],[100,101,102]]).Seek (-2) 2).2.2.windowStart
            = (-2) + (NewMultiReader 4 [[97,98,99],[100,101,102]]).Size)))) :=
  ⟨rfl, c7_multireader_seek (NewMultiReader 4 [[97,98,99],[100,101,102]]) (-2) 2 rfl⟩

/-- C9 counterexample: a zero-length `Read` on a fresh open reader returns
`(0, nil)` but DOES start the prefetch loop, because `Read` starts it before
checking the loop condition `n < len(p)` (`src/unnamed/part_001`, lines
65-67 precede line 70): `pfStarted` flips to `true` and the block stream is
populated, refuting the claim that prefetch state is untouched. -/
theorem c9_zero_read_counterexample :
    (NewMultiReader 1 [[7,8]]).pfStarted = false
    ∧ ((NewMultiReader 1 [[7,8]]).Read 0).1 = 0
    ∧ ((NewMultiReader 1 [[7,8]]).Read 0).2.1 = []
    ∧ ((NewMultiReader 1 [[7,8]]).Read 0).2.2.1 = none
    ∧ ((NewMultiReader 1 [[7,8]]).Read 0).2.2.2.pfStarted = true
    ∧ ((NewMultiReader 1 [[7,8]]).Read 0).2.2.2.pfBlocks ≠ [] := by
  refine ⟨rfl, ?_⟩
  simp [NewMultiReader, MultiReader.Read, MultiReader.Size, MR.totalSize,
    MR.prefixSize, MR.prefetchBlocks, MR.sortSearch, MR.searchFrom, readLoop]

/-- C9 (amended). A `MultiReader.Read` call with a zero-length destination
buffer, on an open reader whose cursor is not at `totalSize`, returns
`(0, nil)` without copying bytes and without consuming any block from the
prefetch channel, and leaves the window and cursor untouched — but it does
start the prefetch loop at the cursor if the loop was not already running. -/
theorem c9_zero_read (m : MultiReader) (hcl : m.closed = false)
    (hend : m.absPos ≠ m.Size) :
    (m.Read 0).1 = 0
    ∧ (m.Read 0).2.1 = []
    ∧ (m.Read 0).2.2.1 = none
    ∧ (m.Read 0).2.2.2.windowBuf = m.windowBuf
    ∧ (m.Read 0).2.2.2.windowStart = m.windowStart
    ∧ (m.Read 0).2.2.2.absPos = m.absPos
    ∧ (m.Read 0).2.2.2.pfStarted = true
    ∧ (m.Read 0).2.2.2.pfBlocks
        = (if m.pfStarted then m.pfBlocks
           else MR.prefetchBlocks m.contents m.bufferSize m.absPos.toNat) := by
  set m1 := if m.pfStarted then m
    else { m with pfStarted := true,
                  pfBlocks := MR.prefetchBlocks m.contents m.bufferSize m.absPos.toNat }
    with hm1def
  have hloop : readLoop 0 0 [] m1.windowBuf m1.windowStart m1.absPos m1.pfBlocks
      = { n := 0, out := [], err := none, windowBuf := m1.windowBuf,
          windowStart := m1.windowStart, absPos := m1.absPos,
          stream := m1.pfBlocks } := by
    rw [readLoop.eq_def]
    norm_num
  have hres : m.Read 0 = (0, [], none,
      { m1 with windowBuf := m1.windowBuf, windowStart := m1.windowStart,
                absPos := m1.absPos, pfBlocks := m1.pfBlocks }) := by
    unfold MultiReader.Read
    rw [if_neg (by simp [hcl]), if_neg hend]
    simp only [← hm1def, hloop]
  rw [hres]
  by_cases hpfs : m.pfStarted
  · simp [hm1def, hpfs]
  · simp [hm1def, hpfs]

theorem c9_zero_read_witness :
    ((NewMultiReader 1 [[7,8]]).closed = false
    ∧ (NewMultiReader 1 [[7,8]]).absPos ≠ (NewMultiReader 1 [[7,8]]).Size)
    ∧ (((NewMultiReader 1 [[7,8]]).Read 0).1 = 0
    ∧ ((NewMultiReader 1 [[7,8]]).Read 0).2.1 = []
    ∧ ((NewMultiReader 1 [[7,8]]).Read 0).2.2.1 = none
    ∧ ((NewMultiReader 1 [[7,8]]).Read 0).2.2.2.windowBuf
        = (NewMultiReader 1 [[7,8]]).windowBuf
    ∧ ((NewMultiReader 1 [[7,8]]).Read 0).2.2.2.windowStart
        = (NewMultiReader 1 [[7,8]]).windowStart
    ∧ ((NewMultiReader 1 [[7,8]]).Read 0).2.2.2.absPos
        = (NewMultiReader 1 [[7,8]]).absPos
    ∧ ((NewMultiReader 1 [[7,8]]).Read 0).2.2.2.pfStarted = true
    ∧ ((NewMultiReader 1 [[7,8]]).Read 0).2.2.2.pfBlocks
        = (if (NewMultiReader 1 [[7,8]]).pfStarted
           then (NewMultiReader 1 [[7,8]]).pfBlocks
           else MR.prefetchBlocks (NewMultiReader 1 [[7,8]]).contents
                  (NewMultiReader 1 [[7,8]]).bufferSize
                  (NewMultiReader 1 [[7,8]]).absPos.toNat)) := by
  have h2 : (NewMultiReader 1 [[7,8]]).absPos ≠ (NewMultiReader 1 [[7,8]]).Size := by
    decide
  exact ⟨⟨rfl, h2⟩, c9_zero_read (NewMultiReader 1 [[7,8]]) rfl h2⟩

/-- C2 is a code bug: `MultiReader.Close` short-circuits at the first failing
sub-reader `Close` (`src/unnamed/part_001`, lines 162-167 return inside the
loop), contradicting its own doc comment ("closes all sources, aggregating
errors") and the aggregation test in the repository.  At a concrete input
with two failing sub-readers, the returned error wraps only the first cause:
the equality-style check fails for the second failing sub-reader, and the
second and third sub-readers are never closed. -/
theorem c2_close_no_aggregation :
    ((NewMultiReader 4 [[120],[121],[122]]).Close
        [some (.named "A"), some (.named "B"), none]).1
      = some (GoError.wrap "r.Close" (.named "A"))
    ∧ errorsIs (GoError.wrap "r.Close" (.named "A")) (.named "A") = true
    ∧ errorsIs (GoError.wrap "r.Close" (.named "A")) (.named "B") = false
    ∧ ((NewMultiReader 4 [[120],[121],[122]]).Close
        [some (.named "A"), some (.named "B"), none]).2.2 = [true, false, false] := by
  refine ⟨?_, ?_, ?_, ?_⟩ <;> decide

namespace HardPipe

/-- A `batch` handed to the worker of the pipelined `Pipe`
(`src/buf-reader-writer/hard/task_expected.go`, lines 187-190): coalesced
items and the cookies to commit in order. -/
structure HBatch (α : Type) where
  items : List α
  cookies : List Int
  deriving DecidableEq, Repr

/-- Observable outcome of the worker goroutine. -/
structure WorkerOut (α : Type) where
  processed : List (List α)
  commitAttempts : List Int
  committed : List Int
  err : Option GoError
  deriving DecidableEq, Repr

/-- The worker of `startWorker` (lines 196-239) run over the sequence of
batches it receives before the channel closes: empty batches are skipped; for
each batch `Process` is called (recorded even on failure), a failure
publishes `push error` on the 1-slot error channel and ends the worker;
otherwise the batch's cookies are committed in order, the first commit
failure likewise publishing its wrapped error and ending the worker.  The
bounded channel delivers batches in send order to the single worker, so the
runs coincide for every schedule. -/
def workerRun (env : PipeEnv α) : List (HBatch α) → WorkerOut α
  | [] => ⟨[], [], [], none⟩
  | b :: rest =>
    if b.items.length = 0 then workerRun env rest
    else
      match env.processErr b.items with
      | some e => ⟨[b.items], [], [], some (.wrap "push error" e)⟩
      | none =>
        let r := EasyPipe.commitList env b.cookies
        match r.2.2 with
        | some e => ⟨[b.items], r.1, r.2.1, some e⟩
        | none =>
          let w := workerRun env rest
          ⟨b.items :: w.processed, r.1 ++ w.commitAttempts,
            r.2.1 ++ w.committed, w.err⟩

/-- Coordinator state of the pipelined `Pipe` (lines 244-327): the pending
buffer and cookies, the batches already sent over the work channel, and the
terminating result.  The model fixes the schedule in which the worker drains
the channel after the coordinator flushes: batch order, `Process`/`Commit`
order and the EOF-path result are schedule-independent (single worker, FIFO
channel); only the program point at which a worker error is first observed
varies, and the EOF path modelled here consults the error channel after
waiting for the worker, as the source does. -/
structure HState (α : Type) where
  buf : List α
  cookies : List Int
  sent : List (HBatch α)
  result : Option GoError
  deriving DecidableEq, Repr

def initHState (α : Type) : HState α :=
  { buf := [], cookies := [], sent := [], result := none }

/-- `flush` (lines 254-267): an empty buffer sends nothing; otherwise the
pending `{B, C}` goes to the work channel and the local buffers restart. -/
def hflush (st : HState α) : HState α :=
  if st.buf.length = 0 then st
  else { st with buf := [], cookies := [],
                 sent := st.sent ++ [⟨st.buf, st.cookies⟩] }

/-- One iteration of the coordinator loop (lines 269-326): on `Next` = EOF it
flushes the tail, closes the work channel, waits for the worker and returns
the worker's published error if any, else `io.EOF`; on another read error it
returns it wrapped; otherwise it accumulates up to `MaxItems` and flushes on
overflow, restarting the buffer from the incoming batch. -/
def hstep (env : PipeEnv α) (st : HState α) : NextRes α → HState α
  | .err e =>
    if e = .eof then
      let st' := hflush st
      { st' with result := some ((workerRun env st'.sent).err.getD .eof) }
    else { st with result := some (.wrap "read error" e) }
  | .ok items cookie =>
    if st.buf.length + items.length ≤ MaxItems then
      { st with buf := st.buf ++ items, cookies := st.cookies ++ [cookie] }
    else
      let st' := hflush st
      { st' with buf := items, cookies := [cookie] }

/-- A run of the pipelined coordinator over a finite script of `Next`
outcomes; once `result` is set the loop has returned. -/
def hrun (env : PipeEnv α) (script : List (NextRes α)) : HState α :=
  script.foldl (fun st r => if st.result.isSome then st else hstep env st r)
    (initHState α)

theorem hrun_append (env : PipeEnv α) (s t : List (NextRes α)) :
    hrun env (s ++ t) =
      t.foldl (fun st r => if st.result.isSome then st else hstep env st r)
        (hrun env s) := by
  simp [hrun, List.foldl_append]

theorem commitList_err_none (env : PipeEnv α) (l : List Int)
    (h : (EasyPipe.commitList env l).2.2 = none) :
    EasyPipe.commitList env l = (l, l, none) := by
  induction l with
  | nil => rfl
  | cons c rest ih =>
    cases hc : env.commitErr c with
    | some e =>
      rw [EasyPipe.commitList, hc] at h
      cases h
    | none =>
      rw [EasyPipe.commitList, hc] at h ⊢
      simp only at h ⊢
      rw [ih h]

theorem workerRun_append (env : PipeEnv α) (l1 l2 : List (HBatch α)) :
    workerRun env (l1 ++ l2)
      = if (workerRun env l1).err.isSome then workerRun env l1
        else ⟨(workerRun env l1).processed ++ (workerRun env l2).processed,
              (workerRun env l1).commitAttempts ++ (workerRun env l2).commitAttempts,
              (workerRun env l1).committed ++ (workerRun env l2).committed,
              (workerRun env l2).err⟩ := by
  induction l1 with
  | nil => simp [workerRun]
  | cons b rest ih =>
    by_cases hempty : b.items.length = 0
    · rw [List.cons_append, workerRun, if_pos hempty, ih,
        show workerRun env (b :: rest) = workerRun env rest from by
          rw [workerRun, if_pos hempty]]
    · cases hpe : env.processErr b.items with
      | some e =>
        rw [List.cons_append, workerRun, if_neg hempty, hpe,
          show workerRun env (b :: rest) = ⟨[b.items], [], [],
            some (.wrap "push error" e)⟩ from by rw [workerRun, if_neg hempty, hpe]]
        rfl
      | none =>
        cases hcl : (EasyPipe.commitList env b.cookies).2.2 with
        | some e =>
          rw [List.cons_append, workerRun, if_neg hempty, hpe,
            show workerRun env (b :: rest) = ⟨[b.items],
              (EasyPipe.commitList env b.cookies).1,
              (EasyPipe.commitList env b.cookies).2.1, some e⟩ from by
                rw [workerRun, if_neg hempty, hpe]
                simp only [hcl]]
          simp only [hcl]
          rfl
        | none =>
          rw [List.cons_append, workerRun, if_neg hempty, hpe,
            show workerRun env (b :: rest) = ⟨b.items :: (workerRun env rest).processed,
              (EasyPipe.commitList env b.cookies).1 ++ (workerRun env rest).commitAttempts,
              (EasyPipe.commitList env b.cookies).2.1 ++ (workerRun env rest).committed,
              (workerRun env rest).err⟩ from by
                rw [workerRun, if_neg hempty, hpe]
                simp only [hcl]]
          simp only [hcl, ih]
          by_cases hre : (workerRun env rest).err.isSome
          · simp [hre]
          · simp [hre, List.append_assoc]

end HardPipe

theorem workerRun_single_ok (env : PipeEnv α) (b : HardPipe.HBatch α)
    (hne : ¬ b.items.length = 0)
    (herr : (HardPipe.workerRun env [b]).err = none) :
    HardPipe.workerRun env [b]
      = ⟨[b.items], b.cookies, b.cookies, none⟩ := by
  cases hpe : env.processErr b.items with
  | some e =>
    rw [HardPipe.workerRun, if_neg hne, hpe] at herr
    cases herr
  | none =>
    cases hcl : (EasyPipe.commitList env b.cookies).2.2 with
    | some e =>
      rw [HardPipe.workerRun, if_neg hne, hpe] at herr
      simp only [hcl] at herr
      cases herr
    | none =>
      have hc := HardPipe.commitList_err_none env b.cookies hcl
      rw [HardPipe.workerRun, if_neg hne, hpe]
      simp only [hcl, hc, HardPipe.workerRun]
      simp only [List.append_nil]

/-- C8. In the pipelined `Pipe` variant: when `Producer.Next` returns EOF,
the coordinator flushes the pending non-empty buffer and its cookies as one
batch to the worker (so the sent-batch sequence ends with exactly that tail),
closes the work channel, waits for the worker to finish, and returns the
worker's published error if it emitted one, otherwise an EOF result; when the
worker finishes without error, the tail batch was `Process`ed after all the
earlier batches and its cookies were committed in arrival order after all the
earlier commits. -/
theorem c8_hard_pipe_eof_flush {α : Type} (env : PipeEnv α) (oks : List (NextRes α))
    (hpre : (HardPipe.hrun env oks).result = none)
    (hbuf : ¬ (HardPipe.hrun env oks).buf.length = 0) :
    (HardPipe.hrun env (oks ++ [NextRes.err GoError.eof])).result
        = some ((HardPipe.workerRun env ((HardPipe.hrun env oks).sent
            ++ [⟨(HardPipe.hrun env oks).buf, (HardPipe.hrun env oks).cookies⟩])).err.getD
              GoError.eof)
    ∧ (HardPipe.hrun env (oks ++ [NextRes.err GoError.eof])).sent
        = (HardPipe.hrun env oks).sent
          ++ [⟨(HardPipe.hrun env oks).buf, (HardPipe.hrun env oks).cookies⟩]
    ∧ ((HardPipe.workerRun env ((HardPipe.hrun env oks).sent
          ++ [⟨(HardPipe.hrun env oks).buf, (HardPipe.hrun env oks).cookies⟩])).err
            = none →
        (HardPipe.workerRun env ((HardPipe.hrun env oks).sent
            ++ [⟨(HardPipe.hrun env oks).buf, (HardPipe.hrun env oks).cookies⟩])).processed
            = (HardPipe.workerRun env (HardPipe.hrun env oks).sent).processed
              ++ [(HardPipe.hrun env oks).buf]
        ∧ (HardPipe.workerRun env ((HardPipe.hrun env oks).sent
            ++ [⟨(HardPipe.hrun env oks).buf, (HardPipe.hrun env oks).cookies⟩])).commitAttempts
            = (HardPipe.workerRun env (HardPipe.hrun env oks).sent).commitAttempts
              ++ (HardPipe.hrun env oks).cookies
        ∧ (HardPipe.workerRun env ((HardPipe.hrun env oks).sent
            ++ [⟨(HardPipe.hrun env oks).buf, (HardPipe.hrun env oks).cookies⟩])).committed
            = (HardPipe.workerRun env (HardPipe.hrun env oks).sent).committed
              ++ (HardPipe.hrun env oks).cookies) := by
  set st := HardPipe.hrun env oks with hstdef
  have hflushed : HardPipe.hflush st
      = { st with buf := [], cookies := [],
                  sent := st.sent ++ [⟨st.buf, st.cookies⟩] } := by
    unfold HardPipe.hflush
    rw [if_neg hbuf]
  have hfin : HardPipe.hrun env (oks ++ [NextRes.err GoError.eof])
      = { st with buf := [], cookies := [],
                  sent := st.sent ++ [⟨st.buf, st.cookies⟩],
                  result := some ((HardPipe.workerRun env
                    (st.sent ++ [⟨st.buf, st.cookies⟩])).err.getD GoError.eof) } := by
    rw [HardPipe.hrun_append, List.foldl_cons, if_neg (by simp [← hstdef, hpre]),
      List.foldl_nil]
    show HardPipe.hstep env st (NextRes.err GoError.eof) = _
    simp only [HardPipe.hstep, if_true]
    simp only [hflushed]
  refine ⟨by rw [hfin], by rw [hfin], ?_⟩
  intro hnone
  have happ := HardPipe.workerRun_append env st.sent [⟨st.buf, st.cookies⟩]
  by_cases hserr : (HardPipe.workerRun env st.sent).err.isSome
  · exfalso
    rw [happ, if_pos hserr] at hnone
    rw [hnone] at hserr
    cases hserr
  · rw [happ, if_neg hserr] at hnone ⊢
    simp only at hnone ⊢
    have hsingle := workerRun_single_ok env ⟨st.buf, st.cookies⟩ hbuf hnone
    rw [hsingle]
    exact ⟨rfl, rfl, rfl⟩

theorem c8_hard_pipe_eof_flush_witness :
    ((HardPipe.hrun okEnv [NextRes.ok [5, 6] 1]).result = none
    ∧ ¬ (HardPipe.hrun okEnv [NextRes.ok [5, 6] 1]).buf.length = 0)
    ∧ ((HardPipe.hrun okEnv ([NextRes.ok [5, 6] 1] ++ [NextRes.err GoError.eof])).result
        = some ((HardPipe.workerRun okEnv ((HardPipe.hrun okEnv [NextRes.ok [5, 6] 1]).sent
            ++ [⟨(HardPipe.hrun okEnv [NextRes.ok [5, 6] 1]).buf,
                 (HardPipe.hrun okEnv [NextRes.ok [5, 6] 1]).cookies⟩])).err.getD
              GoError.eof)
    ∧ (HardPipe.hrun okEnv ([NextRes.ok [5, 6] 1] ++ [NextRes.err GoError.eof])).sent
        = (HardPipe.hrun okEnv [NextRes.ok [5, 6] 1]).sent
          ++ [⟨(HardPipe.hrun okEnv [NextRes.ok [5, 6] 1]).buf,
               (HardPipe.hrun okEnv [NextRes.ok [5, 6] 1]).cookies⟩]
    ∧ ((HardPipe.workerRun okEnv ((HardPipe.hrun okEnv [NextRes.ok [5, 6] 1]).sent
          ++ [⟨(HardPipe.hrun okEnv [NextRes.ok [5, 6] 1]).buf,
               (HardPipe.hrun okEnv [NextRes.ok [5, 6] 1]).cookies⟩])).err = none →
        (HardPipe.workerRun okEnv ((HardPipe.hrun okEnv [NextRes.ok [5, 6] 1]).sent
            ++ [⟨(HardPipe.hrun okEnv [NextRes.ok [5, 6] 1]).buf,
                 (HardPipe.hrun okEnv [NextRes.ok [5, 6] 1]).cookies⟩])).processed
            = (HardPipe.workerRun okEnv
                (HardPipe.hrun okEnv [NextRes.ok [5, 6] 1]).sent).processed
              ++ [(HardPipe.hrun okEnv [NextRes.ok [5, 6] 1]).buf]
        ∧ (HardPipe.workerRun okEnv ((HardPipe.hrun okEnv [NextRes.ok [5, 6] 1]).sent
            ++ [⟨(HardPipe.hrun okEnv [NextRes.ok [5, 6] 1]).buf,
                 (HardPipe.hrun okEnv [NextRes.ok [5, 6] 1]).cookies⟩])).commitAttempts
            = (HardPipe.workerRun okEnv
                (HardPipe.hrun okEnv [NextRes.ok [5, 6] 1]).sent).commitAttempts
              ++ (HardPipe.hrun okEnv [NextRes.ok [5, 6] 1]).cookies
        ∧ (HardPipe.workerRun okEnv ((HardPipe.hrun okEnv [NextRes.ok [5, 6] 1]).sent
            ++ [⟨(HardPipe.hrun okEnv [NextRes.ok [5, 6] 1]).buf,
                 (HardPipe.hrun okEnv [NextRes.ok [5, 6] 1]).cookies⟩])).committed
            = (HardPipe.workerRun okEnv
                (HardPipe.hrun okEnv [NextRes.ok [5, 6] 1]).sent).committed
              ++ (HardPipe.hrun okEnv [NextRes.ok [5, 6] 1]).cookies)) := by
  have h1 : (HardPipe.hrun okEnv [NextRes.ok [5, 6] 1]).result = none := by decide
  have h2 : ¬ (HardPipe.hrun okEnv [NextRes.ok [5, 6] 1]).buf.length = 0 := by decide
  exact ⟨⟨h1, h2⟩, c8_hard_pipe_eof_flush okEnv [NextRes.ok [5, 6] 1] h1 h2⟩
